import Mathlib

/-!
Simulated terminal of `src/terminal.js`.

A shallow embedding of the command interpreter of `terminal.js`: the constants
(`NAV_TARGETS`, `PAGE_MAP`, `COMMANDS`, `CD_ALIASES`), the string helpers
(`normalizeTarget`, `commonPrefix`), the dispatcher (`handleEnter`, `handleCd`),
the history keys (`ArrowUp`, `ArrowDown`), Tab completion
(`handleAutocomplete`, `applyCompletion`) and the page identity
(`getCurrentPage`).

A JavaScript string is modelled by the list of its characters (`Str`), so
strings with unpaired surrogates are outside the model and a caret position
counts characters. `String.prototype.length` counts UTF-16 code units and is
modelled by `jsLength`. `commonPrefix` shortens a string one code unit at a
time, so it is modelled on the code units of the strings (`toCodeUnits`).
The DOM is modelled by the fields of `Session`: the children of the
`#terminal-history` element, the value and caret of the `<input>`, the
`fade-out` class of `<body>` and the navigations scheduled with `setTimeout`.
-/

namespace TerminalJs

/-- A JavaScript string, as the list of its characters. -/
abbrev Str := List Char

/-! ## Constants (terminal.js, lines 10-21) -/

/-- `NAV_TARGETS`. -/
def NAV_TARGETS : List Str :=
  ["home".toList, "about".toList, "projects".toList, "certs".toList, "contact".toList]

/-- `PAGE_MAP[key]`: `none` stands for `undefined` (no own property `key`). -/
def PAGE_MAP (key : Str) : Option Str :=
  if key = "home".toList then some "index.html".toList
  else if key = "about".toList then some "about.html".toList
  else if key = "projects".toList then some "projects.html".toList
  else if key = "certs".toList then some "certs.html".toList
  else if key = "contact".toList then some "contact.html".toList
  else none

/-- `COMMANDS`. -/
def COMMANDS : List Str :=
  ["help".toList, "ls".toList, "cd".toList, "whoami".toList, "date".toList, "clear".toList]

/-- `CD_ALIASES`. -/
def CD_ALIASES : List Str := ["~".toList, "/".toList, "..".toList]

/-- `MAX_COMMAND_LENGTH`. -/
def MAX_COMMAND_LENGTH : Nat := 200

/-! ## String primitives of the host language -/

/-- `s.length`: the number of UTF-16 code units of `s` (a character above
U+FFFF takes two). -/
def jsLength (s : Str) : Nat :=
  (s.map (fun c => if c.toNat < 0x10000 then 1 else 2)).sum

/-- The characters matched by `\s` and removed by `trim()`: the ECMAScript
WhiteSpace and LineTerminator code points. -/
def isWhitespace (c : Char) : Bool :=
  let n := c.toNat
  n == 0x09 || n == 0x0A || n == 0x0B || n == 0x0C || n == 0x0D || n == 0x20 ||
  n == 0xA0 || n == 0x1680 || (0x2000 ≤ n && n ≤ 0x200A) || n == 0x2028 ||
  n == 0x2029 || n == 0x202F || n == 0x205F || n == 0x3000 || n == 0xFEFF

/-- The characters of the class `[\x20-\x7E]`. -/
def isPrintableAscii (c : Char) : Bool :=
  0x20 ≤ c.toNat && c.toNat ≤ 0x7E

/-- `s.trim()`. -/
def trim (s : Str) : Str :=
  ((s.dropWhile isWhitespace).reverse.dropWhile isWhitespace).reverse

/-- One character of `toLowerCase()`: `A`-`Z` go to `a`-`z`. -/
def lowerChar (c : Char) : Char :=
  if 'A'.toNat ≤ c.toNat ∧ c.toNat ≤ 'Z'.toNat then Char.ofNat (c.toNat + 32) else c

/-- `s.toLowerCase()` on the ASCII letters; every other character is kept.
This is the whole of `toLowerCase()` on a string of ASCII characters, which is
what `handleEnter` and `handleCd` pass to it (they run after the `[^\x20-\x7E]`
test). -/
def toLowerCase (s : Str) : Str :=
  s.map lowerChar

/-- `s.startsWith(p)`. -/
def startsWith (s p : Str) : Bool :=
  p.isPrefixOf s

/-- The loop of `s.split(/\s+/)`: `cur` is the piece being read (reversed) and
`inRun` tells that the previous character belonged to a whitespace run. -/
def splitWhitespaceAux : Str → Str → Bool → List Str
  | [], cur, _ => [cur.reverse]
  | c :: cs, cur, inRun =>
    if isWhitespace c then
      if inRun then splitWhitespaceAux cs cur true
      else cur.reverse :: splitWhitespaceAux cs [] true
    else splitWhitespaceAux cs (c :: cur) false

/-- `s.split(/\s+/)`. -/
def splitWhitespace (s : Str) : List Str :=
  splitWhitespaceAux s [] false

/-- `commandText.split(/\s+/).filter(Boolean)`: the empty pieces are dropped. -/
def tokenize (commandText : Str) : List Str :=
  (splitWhitespace commandText).filter (fun piece => !piece.isEmpty)

/-- `xs[i]` for a JavaScript array: `none` stands for `undefined`. -/
def jsIndex (xs : List Str) (i : Int) : Option Str :=
  if i < 0 then none else xs[i.toNat]?

/-! ## `normalizeTarget` and `commonPrefix` (terminal.js, lines 418-438) -/

/-- `s.replace(/^\.?\//, "")`. -/
def stripLeadingSlash : Str → Str
  | '.' :: '/' :: rest => rest
  | '/' :: rest => rest
  | s => s

/-- `s.replace(/\/+$/, "")`. -/
def stripTrailingSlashes (s : Str) : Str :=
  (s.reverse.dropWhile (fun c => c == '/')).reverse

/-- `normalizeTarget(target)`; `target` is a string at every call. -/
def normalizeTarget (target : Str) : Str :=
  stripTrailingSlashes (stripLeadingSlash (toLowerCase (trim target)))

/-- The UTF-16 code units of a string, which are what `length`, `startsWith`
and `slice` count: a character above U+FFFF gives a high and a low surrogate. -/
def toCodeUnits : Str → List Nat
  | [] => []
  | c :: cs =>
    if c.toNat < 0x10000 then c.toNat :: toCodeUnits cs
    else
      (0xD800 + (c.toNat - 0x10000) / 0x400) ::
        (0xDC00 + (c.toNat - 0x10000) % 0x400) :: toCodeUnits cs

/-- The character of one code unit that is not half of a pair. An unpaired
surrogate has no counterpart in `Str` and is rendered as U+FFFD. -/
def unitChar (u : Nat) : Char :=
  if 0xD800 ≤ u ∧ u < 0xE000 then Char.ofNat 0xFFFD else Char.ofNat u

/-- The string of a sequence of UTF-16 code units: a high surrogate followed by
a low surrogate is one character. -/
def fromCodeUnits : List Nat → Str
  | [] => []
  | [u] => [unitChar u]
  | hi :: lo :: rest =>
    if 0xD800 ≤ hi ∧ hi < 0xDC00 ∧ 0xDC00 ≤ lo ∧ lo < 0xE000 then
      Char.ofNat (0x10000 + (hi - 0xD800) * 0x400 + (lo - 0xDC00)) :: fromCodeUnits rest
    else unitChar hi :: fromCodeUnits (lo :: rest)

/-- The inner `while` loop of `commonPrefix`, run for at most `fuel` rounds, on
strings given by their units (UTF-16 code units in the program):
`value.startsWith(pre)` compares units and `pre.slice(0, -1)` drops the last
unit. -/
def shrinkPrefix {α : Type} [DecidableEq α] (value : List α) : Nat → List α → List α
  | 0, pre => pre
  | fuel + 1, pre =>
    if !pre.isPrefixOf value && decide (pre.length > 0) then
      shrinkPrefix value fuel pre.dropLast
    else pre

/-- `commonPrefix(values)`, on strings given by their units (UTF-16 code units
in the program). The inner loop drops one unit per round, so `pre.length`
rounds are enough for it to stop. -/
def commonPrefix {α : Type} [DecidableEq α] : List (List α) → List α
  | [] => []
  | first :: others =>
    others.foldl (fun pre value => shrinkPrefix value pre.length pre) first

/-! ## Session state -/

/-- A child of the `#terminal-history` element. -/
inductive OutputNode where
  /-- The `<p>` built by `appendCommandEcho`. -/
  | echo (commandText : Str)
  /-- The `<div class="cmd-output">` built by `appendOutput`, one row per line;
  `isError` adds the class `cmd-output-error`. -/
  | output (lines : List Str) (isError : Bool)
  deriving DecidableEq, Repr

/-- The state `initializeTerminal` closes over, with the part of the page it
acts on. -/
structure Session where
  /-- `currentPage`, set once by `getCurrentPage()`. -/
  currentPage : Str
  /-- The array `history`, most recent first. -/
  history : List Str
  /-- The variable `historyIndex`. -/
  historyIndex : Int
  /-- The text of the input element, `terminalUI.input.value`. -/
  inputValue : Str
  /-- The caret of the input element, `selectionStart`. -/
  selectionStart : Nat
  /-- The children of `terminalUI.historyContainer`, in document order. -/
  historyContainer : List OutputNode
  /-- Whether `<body>` has the class `fade-out`. -/
  fadeOut : Bool
  /-- The arguments of the `window.location.assign` calls scheduled by
  `setTimeout(..., 280)`, oldest first. -/
  navigations : List (Option Str)
  deriving DecidableEq, Repr

/-- The session right after `initializeTerminal`, on the page `currentPage`. -/
def initialSession (currentPage : Str) : Session :=
  { currentPage := currentPage, history := [], historyIndex := -1, inputValue := [],
    selectionStart := 0, historyContainer := [], fadeOut := false, navigations := [] }

/-- `appendCommandEcho(historyContainer, commandText)`. -/
def appendCommandEcho (commandText : Str) (s : Session) : Session :=
  { s with historyContainer := s.historyContainer ++ [OutputNode.echo commandText] }

/-- `appendOutput(historyContainer, lines, isError)`. -/
def appendOutput (lines : List Str) (isError : Bool) (s : Session) : Session :=
  { s with historyContainer := s.historyContainer ++ [OutputNode.output lines isError] }

/-- `placeCursorAtEnd(input)`. -/
def placeCursorAtEnd (s : Session) : Session :=
  { s with selectionStart := s.inputValue.length }

/-- The two statements that start a navigation:
`document.body.classList.add("fade-out")` and
`window.setTimeout(() => window.location.assign(destination), 280)`. -/
def startNavigation (destination : Option Str) (s : Session) : Session :=
  { s with fadeOut := true, navigations := s.navigations ++ [destination] }

/-! ## The dispatcher (terminal.js, lines 156-261) -/

/-- `handleCd(rawTarget)`. -/
def handleCd (rawTarget : Str) (s : Session) : Session :=
  let normalized := normalizeTarget rawTarget
  if normalized = [] ∨ normalized = "~".toList ∨ normalized = "/".toList ∨
      normalized = "..".toList then
    if s.currentPage = "home".toList then
      appendOutput ["Already at /home".toList] false s
    else
      startNavigation (PAGE_MAP "home".toList)
        (appendOutput ["Navigating to /home...".toList] false s)
  else if ¬ normalized ∈ NAV_TARGETS then
    appendOutput ["cd: ".toList ++ rawTarget ++ ": No such directory".toList] true s
  else if normalized = s.currentPage then
    appendOutput ["Already at /".toList ++ normalized] false s
  else
    startNavigation (PAGE_MAP normalized)
      (appendOutput ["Navigating to /".toList ++ normalized ++ "...".toList] false s)

/-- The lines printed by `help`. -/
def helpLines : List Str :=
  ["Available commands:".toList,
   "  help           Show command list".toList,
   "  ls             List site directories".toList,
   "  cd <dir>       Navigate to page (home/about/projects/certs/contact)".toList,
   "  whoami         Show current user".toList,
   "  date           Show local date and time".toList,
   "  clear          Clear terminal output".toList,
   "Tips: Use TAB for autocomplete and arrows for command history.".toList]

/-- The lines printed by `ls`. -/
def lsLines : List Str :=
  ["home/  about/  projects/  certs/  contact/".toList, "Use: cd <dir>".toList]

/-- The `switch (command)` of `handleEnter`; `now` is `new Date().toString()`. -/
def dispatch (now : Str) (args : List Str) (s : Session) : Session :=
  let command := toLowerCase (args.headD [])
  if command = "help".toList then appendOutput helpLines false s
  else if command = "ls".toList then appendOutput lsLines false s
  else if command = "whoami".toList then
    appendOutput ["root (Administrator Access)".toList] false s
  else if command = "date".toList then appendOutput [now] false s
  else if command = "clear".toList then { s with historyContainer := [] }
  else if command = "cd".toList then handleCd ((args[1]?).getD []) s
  else
    appendOutput
      ["bash: ".toList ++ command ++ ": command not found. Type 'help'.".toList] true s

/-- `history.unshift(commandText); if (history.length > 100) history.pop();`. -/
def recordHistory (commandText : Str) (history : List Str) : List Str :=
  let pushed := commandText :: history
  if pushed.length > 100 then pushed.dropLast else pushed

/-- `handleEnter()`; `now` is what `new Date().toString()` returns. -/
def handleEnter (now : Str) (s : Session) : Session :=
  let rawInput := s.inputValue
  let commandText := trim rawInput
  let s1 : Session := { s with inputValue := [], selectionStart := 0 }
  if commandText = [] then s1
  else
    let s2 := appendCommandEcho commandText s1
    let s3 : Session :=
      { s2 with history := recordHistory commandText s2.history, historyIndex := -1 }
    if jsLength commandText > MAX_COMMAND_LENGTH then
      appendOutput ["Input too long. Keep commands below 200 characters.".toList] true s3
    else if commandText.any (fun c => !isPrintableAscii c) then
      appendOutput ["Unsupported control characters detected in input.".toList] true s3
    else
      dispatch now (tokenize commandText) s3

/-! ## History keys (terminal.js, lines 129-153) -/

/-- `input.value = v` where `v` may be `undefined`, which the DOM turns into
the text `undefined`. -/
def assignedValue (v : Option Str) : Str :=
  v.getD "undefined".toList

/-- The `ArrowUp` branch of the keydown handler (`recallOlder`). -/
def arrowUp (s : Session) : Session :=
  if s.history.length = 0 then s
  else
    let index := if s.historyIndex < (s.history.length : Int) - 1 then s.historyIndex + 1
      else s.historyIndex
    placeCursorAtEnd
      { s with historyIndex := index, inputValue := assignedValue (jsIndex s.history index) }

/-- The `ArrowDown` branch of the keydown handler (`recallNewer`);
`history[historyIndex] || ""` is the entry, or the empty string when the entry
is `undefined` or empty. -/
def arrowDown (s : Session) : Session :=
  if s.historyIndex ≤ 0 then
    { s with historyIndex := -1, inputValue := [], selectionStart := 0 }
  else
    let index := s.historyIndex - 1
    placeCursorAtEnd
      { s with historyIndex := index, inputValue := (jsIndex s.history index).getD [] }

/-! ## Tab completion (terminal.js, lines 326-375) -/

/-- `applyCompletion(input, historyContainer, prefix, partial, candidates)`;
`lead` is the argument `prefix` and `typed` the argument `partial`. The common
prefix is computed on the UTF-16 code units of the candidates, and
`prefixMatch.length` is its number of units. -/
def applyCompletion (lead typed : Str) (candidates : List Str) (s : Session) : Session :=
  match candidates with
  | [] => s
  | [only] => placeCursorAtEnd { s with inputValue := lead ++ only ++ " ".toList }
  | _ =>
    let prefixMatch := commonPrefix (candidates.map toCodeUnits)
    if prefixMatch.length > jsLength typed then
      placeCursorAtEnd { s with inputValue := lead ++ fromCodeUnits prefixMatch }
    else
      appendOutput ["Suggestions: ".toList ++ "  ".toList.intercalate candidates] false s

/-- `leftOfCaret.match(/^(\s*cd\s+)([^\s]*)$/i)`: the two groups, when the
text is a whitespace run, `cd` in either case, a non-empty whitespace run and
a run without whitespace. -/
def matchCd (leftOfCaret : Str) : Option (Str × Str) :=
  let lead := leftOfCaret.takeWhile isWhitespace
  match leftOfCaret.dropWhile isWhitespace with
  | c :: d :: rest =>
    if (c = 'c' ∨ c = 'C') ∧ (d = 'd' ∨ d = 'D') then
      let gap := rest.takeWhile isWhitespace
      let typed := rest.dropWhile isWhitespace
      if gap ≠ [] ∧ typed.all (fun x => !isWhitespace x) then
        some (lead ++ [c, d] ++ gap, typed)
      else none
    else none
  | _ => none

/-- `leftOfCaret.match(/^(\s*)([^\s]*)$/)`: the two groups, when the text is a
whitespace run followed by a run without whitespace. -/
def matchCommand (leftOfCaret : Str) : Option (Str × Str) :=
  let lead := leftOfCaret.takeWhile isWhitespace
  let typed := leftOfCaret.dropWhile isWhitespace
  if typed.all (fun x => !isWhitespace x) then some (lead, typed) else none

/-- `handleAutocomplete(input, historyContainer)`; the caret is read from
`selectionStart`. The typed token reaches `toLowerCase` unvalidated. On an
ASCII token the model of `toLowerCase` is exact. On a token with a character
outside ASCII the result of the real `toLowerCase` still has a character
outside ASCII or the letter `k` (from U+212A), so no candidate starts with it,
as in the model where that character is kept. -/
def handleAutocomplete (s : Session) : Session :=
  let value := s.inputValue
  let caret := s.selectionStart
  let leftOfCaret := value.take caret
  let rightOfCaret := value.drop caret
  if rightOfCaret.any isWhitespace then s
  else
    match matchCd leftOfCaret with
    | some (lead, typed) =>
      let typed := toLowerCase typed
      let candidates := (NAV_TARGETS ++ CD_ALIASES).filter (fun item => startsWith item typed)
      applyCompletion lead typed candidates s
    | none =>
      match matchCommand leftOfCaret with
      | none => s
      | some (lead, typed) =>
        let typed := toLowerCase typed
        let candidates := COMMANDS.filter (fun item => startsWith item typed)
        applyCompletion lead typed candidates s

/-! ## Sessions as event sequences -/

/-- What the user can do between two states of the session. -/
inductive Event where
  /-- Editing the input: the new text and the new caret position. -/
  | edit (value : Str) (caret : Nat)
  /-- The `Enter` key, at a moment when `new Date().toString()` is `now`. -/
  | enter (now : Str)
  /-- The `Tab` key. -/
  | tab
  /-- The `ArrowUp` key. -/
  | arrowUp
  /-- The `ArrowDown` key. -/
  | arrowDown

/-- The keydown handler, and the edits of the input between key presses. -/
def step (s : Session) : Event → Session
  | Event.edit value caret => { s with inputValue := value, selectionStart := caret }
  | Event.enter now => handleEnter now s
  | Event.tab => handleAutocomplete s
  | Event.arrowUp => arrowUp s
  | Event.arrowDown => arrowDown s

/-- The session after the events `events`, in order, starting from `s`. -/
def run (s : Session) (events : List Event) : Session :=
  events.foldl step s

/-- A session reachable from the initial session of some page. -/
def Reachable (s : Session) : Prop :=
  ∃ currentPage events, s = run (initialSession currentPage) events

/-- The session in which the user has typed `line` into the input of `s`. -/
def typeLine (line : Str) (s : Session) : Session :=
  { s with inputValue := line, selectionStart := line.length }

/-- Submitting `line`: the user types it into the input and presses `Enter`. -/
def submit (now : Str) (line : Str) (s : Session) : Session :=
  handleEnter now (typeLine line s)

/-- The session `handleEnter` passes on once the trimmed line is known to be
non-empty: the input is cleared, the echo appended and the line recorded. -/
def recorded (commandText : Str) (s : Session) : Session :=
  { s with
    inputValue := [], selectionStart := 0,
    historyContainer := s.historyContainer ++ [OutputNode.echo commandText],
    history := recordHistory commandText s.history, historyIndex := -1 }

/-! ## Page identity (terminal.js, lines 405-416) -/

/-- `path.split("/").pop()`: the text after the last `/` (the whole text when
there is none). -/
def lastSegment (path : Str) : Str :=
  (path.reverse.takeWhile (fun c => c != '/')).reverse

/-- `s.split(sep)[0]` for a one-character separator: the text before the first
`sep`. -/
def beforeFirst (sep : Char) (s : Str) : Str :=
  s.takeWhile (fun c => c != sep)

/-- `s.replace(pattern, "")` for a non-empty string pattern: the first
occurrence of `pattern` is removed. -/
def removeFirst (pattern : Str) : Str → Str
  | [] => []
  | c :: cs =>
    if pattern.isPrefixOf (c :: cs) then (c :: cs).drop pattern.length
    else c :: removeFirst pattern cs

/-- The constant `cleanFile` of `getCurrentPage`, for `window.location.pathname`
equal to `pathname`: `file` is the last segment, or `PAGE_MAP.home` when that
segment is empty. A pathname is percent-encoded, hence ASCII, and `toLowerCase`
is exact on it. -/
def cleanFile (pathname : Str) : Str :=
  let file := if lastSegment pathname = [] then "index.html".toList else lastSegment pathname
  toLowerCase (beforeFirst '#' (beforeFirst '?' file))

/-- `getCurrentPage()`, for `window.location.pathname` equal to `pathname`. -/
def getCurrentPage (pathname : Str) : Str :=
  if cleanFile pathname = "index.html".toList then "home".toList
  else
    let page := removeFirst ".html".toList (cleanFile pathname)
    if page ∈ NAV_TARGETS then page else "home".toList

/-! ## Theorems -/

/-- The empty text has no token. -/
theorem tokenize_nil : tokenize [] = [] := by decide

/-- A line that passes both tests of `handleEnter` reaches the `switch` with
its tokens, after the echo and the history update. -/
theorem submit_eq_dispatch (now line : Str) (s : Session)
    (hne : trim line ≠ [])
    (hlen : jsLength (trim line) ≤ MAX_COMMAND_LENGTH)
    (hascii : ∀ ch ∈ trim line, isPrintableAscii ch = true) :
    submit now line s = dispatch now (tokenize (trim line)) (recorded (trim line) s) := by
  have hany : (trim line).any (fun c => !isPrintableAscii c) = false := by
    rw [List.any_eq_false]
    intro ch hch
    simp [hascii ch hch]
  have hlen' : ¬ jsLength (trim line) > MAX_COMMAND_LENGTH := by omega
  simp [submit, handleEnter, typeLine, hne, hany, hlen', recorded, appendCommandEcho]

/-- A text that has a token is not empty. -/
theorem trim_ne_nil_of_tokenize {text : Str} {c : Str} {rest : List Str}
    (htok : tokenize text = c :: rest) : text ≠ [] := by
  rintro rfl
  simp [tokenize_nil] at htok

/-- The `cd` case of the `switch` calls `handleCd(args[1] || "")`. -/
theorem dispatch_cd (now : Str) (c : Str) (rest : List Str) (s : Session)
    (hcd : toLowerCase c = "cd".toList) :
    dispatch now (c :: rest) s = handleCd ((rest.head?).getD []) s := by
  cases rest <;> simp [dispatch, hcd]

/-- The last two branches of `handleCd`, taken for a nav target. -/
theorem handleCd_navTarget (a t : Str) (s : Session)
    (hnorm : normalizeTarget a = t) (ht : t ∈ NAV_TARGETS) :
    handleCd a s =
      if t = s.currentPage then appendOutput ["Already at /".toList ++ t] false s
      else startNavigation (PAGE_MAP t)
        (appendOutput ["Navigating to /".toList ++ t ++ "...".toList] false s) := by
  have h1 : ¬ (t = [] ∨ t = "~".toList ∨ t = "/".toList ∨ t = "..".toList) := by
    simp only [NAV_TARGETS, List.mem_cons, List.mem_singleton, List.not_mem_nil, or_false] at ht
    rcases ht with h | h | h | h | h <;> subst h <;> decide
  simp only [handleCd, hnorm, h1, ht, if_false, not_true_eq_false]

/-- The first branch of `handleCd`, taken for the empty string and the aliases. -/
theorem handleCd_goHome (a : Str) (s : Session)
    (hgo : normalizeTarget a = [] ∨ normalizeTarget a ∈ CD_ALIASES) :
    handleCd a s =
      if s.currentPage = "home".toList then appendOutput ["Already at /home".toList] false s
      else startNavigation (some "index.html".toList)
        (appendOutput ["Navigating to /home...".toList] false s) := by
  have h1 : normalizeTarget a = [] ∨ normalizeTarget a = "~".toList ∨
      normalizeTarget a = "/".toList ∨ normalizeTarget a = "..".toList := by
    simpa [CD_ALIASES] using hgo
  have hp : PAGE_MAP "home".toList = some "index.html".toList := by decide
  simp only [handleCd, h1, if_true, hp]

/-- What `handleCd("home")` does. -/
theorem handleCd_home (s : Session) :
    handleCd "home".toList s =
      if s.currentPage = "home".toList then appendOutput ["Already at /home".toList] false s
      else startNavigation (some "index.html".toList)
        (appendOutput ["Navigating to /home...".toList] false s) := by
  rw [handleCd_navTarget "home".toList "home".toList s (by decide) (by decide)]
  have hp : PAGE_MAP "home".toList = some "index.html".toList := by decide
  by_cases h : s.currentPage = "home".toList
  · simp [h]
  · have h' : ¬ "home".toList = s.currentPage := fun e => h e.symm
    simp only [h, h', if_false, hp]
    rfl

/-- The error branch of `handleCd`. -/
theorem handleCd_unknown (a : Str) (s : Session)
    (hempty : normalizeTarget a ≠ [])
    (halias : normalizeTarget a ∉ CD_ALIASES)
    (htarget : normalizeTarget a ∉ NAV_TARGETS) :
    handleCd a s =
      appendOutput ["cd: ".toList ++ a ++ ": No such directory".toList] true s := by
  have h1 : ¬ (normalizeTarget a = [] ∨ normalizeTarget a = "~".toList ∨
      normalizeTarget a = "/".toList ∨ normalizeTarget a = "..".toList) := by
    simpa [CD_ALIASES, hempty] using halias
  simp only [handleCd, h1, htarget, if_false, not_false_eq_true, if_true]

/-- The `unshift` and the guarded `pop`, as a list. -/
theorem recordHistory_eq (commandText : Str) (history : List Str) :
    recordHistory commandText history =
      commandText :: (if 100 ≤ history.length then history.dropLast else history) := by
  unfold recordHistory
  cases history with
  | nil => simp
  | cons e es =>
    by_cases h : 100 ≤ (e :: es).length
    · have h' : (commandText :: e :: es).length > 100 := by simp at h ⊢; omega
      simp only [h', h, if_true, List.dropLast_cons₂]
    · have h' : ¬ (commandText :: e :: es).length > 100 := by simp at h ⊢; omega
      simp only [h', h, if_false]

/-- On a history within the bound, recording is a push cut to 100 entries. -/
theorem recordHistory_eq_take (commandText : Str) (history : List Str)
    (hbound : history.length ≤ 100) :
    recordHistory commandText history = (commandText :: history).take 100 := by
  rw [recordHistory_eq]
  by_cases h : 100 ≤ history.length
  · have hl : history.length = 100 := by omega
    rw [if_pos h, List.dropLast_eq_take, hl]
    rfl
  · rw [if_neg h, List.take_of_length_le]
    simp only [List.length_cons]
    omega

/-- The `default` case of the `switch`. -/
theorem dispatch_unknown (now : Str) (args : List Str) (s : Session)
    (hcmd : toLowerCase (args.headD []) ∉ COMMANDS) :
    dispatch now args s =
      appendOutput ["bash: ".toList ++ toLowerCase (args.headD []) ++
        ": command not found. Type 'help'.".toList] true s := by
  simp only [COMMANDS, List.mem_cons, List.mem_singleton, List.not_mem_nil, or_false,
    not_or] at hcmd
  obtain ⟨h1, h2, h3, h4, h5, h6⟩ := hcmd
  simp only [dispatch, h1, h2, h3, h4, h5, h6, if_false]

/-- C4: a valid line whose lower-cased first token is not a known command
prints, after the echo, the one error line
`bash: <command>: command not found. Type 'help'.`, navigates nowhere and is
recorded at the front of the history; for `foo` the line is
`bash: foo: command not found. Type 'help'.`. -/
theorem unknown_command :
    (∀ (now line : Str) (s : Session),
      trim line ≠ [] →
      jsLength (trim line) ≤ MAX_COMMAND_LENGTH →
      (∀ ch ∈ trim line, isPrintableAscii ch = true) →
      toLowerCase ((tokenize (trim line)).headD []) ∉ COMMANDS →
      submit now line s =
        { currentPage := s.currentPage
          history := recordHistory (trim line) s.history
          historyIndex := -1
          inputValue := []
          selectionStart := 0
          historyContainer := s.historyContainer ++
            [OutputNode.echo (trim line),
             OutputNode.output
               ["bash: ".toList ++ toLowerCase ((tokenize (trim line)).headD []) ++
                 ": command not found. Type 'help'.".toList] true]
          fadeOut := s.fadeOut
          navigations := s.navigations } ∧
      (submit now line s).history.head? = some (trim line)) ∧
    (∀ (now : Str) (s : Session),
      (submit now "foo".toList s).historyContainer = s.historyContainer ++
        [OutputNode.echo "foo".toList,
         OutputNode.output ["bash: foo: command not found. Type 'help'.".toList] true] ∧
      (submit now "foo".toList s).navigations = s.navigations ∧
      (submit now "foo".toList s).history.head? = some "foo".toList) := by
  have key : ∀ (now line : Str) (s : Session),
      trim line ≠ [] →
      jsLength (trim line) ≤ MAX_COMMAND_LENGTH →
      (∀ ch ∈ trim line, isPrintableAscii ch = true) →
      toLowerCase ((tokenize (trim line)).headD []) ∉ COMMANDS →
      submit now line s =
        { currentPage := s.currentPage
          history := recordHistory (trim line) s.history
          historyIndex := -1
          inputValue := []
          selectionStart := 0
          historyContainer := s.historyContainer ++
            [OutputNode.echo (trim line),
             OutputNode.output
               ["bash: ".toList ++ toLowerCase ((tokenize (trim line)).headD []) ++
                 ": command not found. Type 'help'.".toList] true]
          fadeOut := s.fadeOut
          navigations := s.navigations } := by
    intro now line s hne hlen hascii hcmd
    rw [submit_eq_dispatch now line s hne hlen hascii, dispatch_unknown now _ _ hcmd]
    simp [recorded, appendOutput]
  refine ⟨fun now line s hne hlen hascii hcmd => ⟨key now line s hne hlen hascii hcmd, ?_⟩, ?_⟩
  · rw [key now line s hne hlen hascii hcmd]
    simp [recordHistory_eq]
  · intro now s
    rw [key now "foo".toList s (by decide) (by decide) (by decide) (by decide)]
    refine ⟨rfl, rfl, ?_⟩
    simp only [recordHistory_eq, List.head?_cons]
    rfl

theorem unknown_command_witness :
    (submit [] " Foo  bar ".toList (initialSession "home".toList)).historyContainer =
      [OutputNode.echo "Foo  bar".toList,
       OutputNode.output ["bash: foo: command not found. Type 'help'.".toList] true] := by
  rw [(unknown_command.1 [] " Foo  bar ".toList (initialSession "home".toList)
    (by decide) (by decide) (by decide) (by decide)).1]
  decide

/-- A text of positive length is not empty. -/
theorem length_pos_of_jsLength_pos {text : Str} (h : 0 < jsLength text) : text ≠ [] := by
  rintro rfl
  simp [jsLength] at h

/-- A text has at least as many code units as characters. -/
theorem length_le_jsLength (text : Str) : text.length ≤ jsLength text := by
  induction text with
  | nil => simp [jsLength]
  | cons c cs ih =>
    simp only [jsLength, List.map_cons, List.sum_cons, List.length_cons] at ih ⊢
    split <;> omega

/-- C5: a line whose trimmed text is longer than 200, whatever its characters,
prints after the echo the one error line
`Input too long. Keep commands below 200 characters.`, dispatches nothing,
navigates nowhere and is recorded at the front of the history as trimmed. -/
theorem too_long (now line : Str) (s : Session)
    (hlong : MAX_COMMAND_LENGTH < jsLength (trim line)) :
    submit now line s =
      { currentPage := s.currentPage
        history := recordHistory (trim line) s.history
        historyIndex := -1
        inputValue := []
        selectionStart := 0
        historyContainer := s.historyContainer ++
          [OutputNode.echo (trim line),
           OutputNode.output
             ["Input too long. Keep commands below 200 characters.".toList] true]
        fadeOut := s.fadeOut
        navigations := s.navigations } ∧
    (submit now line s).history.head? = some (trim line) := by
  have hne : trim line ≠ [] := length_pos_of_jsLength_pos (by omega)
  have hgt : jsLength (trim line) > MAX_COMMAND_LENGTH := hlong
  constructor
  · simp only [submit, handleEnter, typeLine, hne, hgt, if_true, if_false]
    simp [appendOutput, appendCommandEcho]
  · simp only [submit, handleEnter, typeLine, hne, hgt, if_true, if_false]
    simp [appendOutput, appendCommandEcho, recordHistory_eq]

set_option maxRecDepth 20000 in
theorem too_long_witness :
    MAX_COMMAND_LENGTH < jsLength (trim (List.replicate 201 (Char.ofNat 7))) ∧
    (submit [] (List.replicate 201 (Char.ofNat 7)) (initialSession "home".toList)).historyContainer =
      [OutputNode.echo (List.replicate 201 (Char.ofNat 7)),
       OutputNode.output
         ["Input too long. Keep commands below 200 characters.".toList] true] := by
  have hl : MAX_COMMAND_LENGTH < jsLength (trim (List.replicate 201 (Char.ofNat 7))) := by decide
  refine ⟨hl, ?_⟩
  rw [(too_long [] (List.replicate 201 (Char.ofNat 7)) (initialSession "home".toList) hl).1]
  decide

/-- C6 fails as stated: the line `ls` followed by a tab contains a character
outside 0x20-0x7E, yet the tab is trimmed away and `ls` is dispatched; and a
line of 201 control characters gets the too-long message. Neither output holds
the invalid-characters message. -/
theorem invalid_characters_counterexample :
    ((∃ ch ∈ "ls\t".toList, isPrintableAscii ch = false) ∧
      (submit [] "ls\t".toList (initialSession "home".toList)).historyContainer =
        [OutputNode.echo "ls".toList, OutputNode.output lsLines false] ∧
      OutputNode.output ["Unsupported control characters detected in input.".toList] true ∉
        (submit [] "ls\t".toList (initialSession "home".toList)).historyContainer) ∧
    ((∃ ch ∈ List.replicate 201 (Char.ofNat 7), isPrintableAscii ch = false) ∧
      (submit [] (List.replicate 201 (Char.ofNat 7))
          (initialSession "home".toList)).historyContainer =
        [OutputNode.echo (List.replicate 201 (Char.ofNat 7)),
         OutputNode.output
           ["Input too long. Keep commands below 200 characters.".toList] true] ∧
      OutputNode.output ["Unsupported control characters detected in input.".toList] true ∉
        (submit [] (List.replicate 201 (Char.ofNat 7))
          (initialSession "home".toList)).historyContainer) := by
  refine ⟨⟨⟨Char.ofNat 9, by decide, by decide⟩, by decide, by decide⟩,
    ⟨⟨Char.ofNat 7, by decide, by decide⟩, ?_, ?_⟩⟩
  · set_option maxRecDepth 20000 in decide
  · set_option maxRecDepth 20000 in decide

/-- C6, amended: a line whose trimmed text is at most 200 long and contains a
character outside 0x20-0x7E prints, after the echo, the one error line
`Unsupported control characters detected in input.`; nothing is dispatched and
nothing is navigated to. -/
theorem invalid_characters (now line : Str) (s : Session)
    (hlen : jsLength (trim line) ≤ MAX_COMMAND_LENGTH)
    (hbad : ∃ ch ∈ trim line, isPrintableAscii ch = false) :
    submit now line s =
      { currentPage := s.currentPage
        history := recordHistory (trim line) s.history
        historyIndex := -1
        inputValue := []
        selectionStart := 0
        historyContainer := s.historyContainer ++
          [OutputNode.echo (trim line),
           OutputNode.output
             ["Unsupported control characters detected in input.".toList] true]
        fadeOut := s.fadeOut
        navigations := s.navigations } := by
  obtain ⟨ch, hmem, hch⟩ := hbad
  have hne : trim line ≠ [] := List.ne_nil_of_mem hmem
  have hle : ¬ jsLength (trim line) > MAX_COMMAND_LENGTH := by omega
  have hany : (trim line).any (fun c => !isPrintableAscii c) = true := by
    rw [List.any_eq_true]
    exact ⟨ch, hmem, by simp [hch]⟩
  simp only [submit, handleEnter, typeLine, hne, hle, hany, if_true, if_false]
  simp [appendOutput, appendCommandEcho]

theorem invalid_characters_witness :
    (submit [] "l\ts".toList (initialSession "home".toList)).historyContainer =
      [OutputNode.echo "l\ts".toList,
       OutputNode.output
         ["Unsupported control characters detected in input.".toList] true] := by
  rw [invalid_characters [] "l\ts".toList (initialSession "home".toList) (by decide)
    ⟨Char.ofNat 9, by decide, by decide⟩]
  decide

/-- The trimmed text is empty exactly when every character is whitespace. -/
theorem trim_eq_nil_iff (line : Str) :
    trim line = [] ↔ ∀ ch ∈ line, isWhitespace ch = true := by
  unfold trim
  rw [List.reverse_eq_nil_iff, List.dropWhile_eq_nil_iff]
  constructor
  · intro h
    have h2 : line.dropWhile isWhitespace = [] := by
      by_contra hne
      have hhead := List.head_dropWhile_not isWhitespace line hne
      have hmem : (line.dropWhile isWhitespace).head hne ∈ (line.dropWhile isWhitespace).reverse :=
        List.mem_reverse.mpr (List.head_mem hne)
      have := h _ hmem
      simp [this] at hhead
    exact List.dropWhile_eq_nil_iff.mp h2
  · intro h x hx
    rw [List.mem_reverse] at hx
    exact h x ((List.dropWhile_sublist _).subset hx)

/-- C7: a line made of whitespace only (the empty line included) changes
nothing but the pending input, which is cleared: no output, no history entry,
same history and cursor, no navigation. -/
theorem whitespace_only (now line : Str) (s : Session)
    (hws : ∀ ch ∈ line, isWhitespace ch = true) :
    submit now line s =
      { currentPage := s.currentPage
        history := s.history
        historyIndex := s.historyIndex
        inputValue := []
        selectionStart := 0
        historyContainer := s.historyContainer
        fadeOut := s.fadeOut
        navigations := s.navigations } := by
  have h : trim line = [] := (trim_eq_nil_iff line).mpr hws
  simp [submit, handleEnter, typeLine, h]

theorem whitespace_only_witness :
    (∀ ch ∈ " \t ".toList, isWhitespace ch = true) ∧
    submit [] " \t ".toList (run (initialSession "home".toList)
        [Event.edit "ls".toList 2, Event.enter []]) =
      run (initialSession "home".toList) [Event.edit "ls".toList 2, Event.enter []] :=
  ⟨by decide, by
    rw [whitespace_only [] " \t ".toList _ (by decide)]
    decide⟩

/-- `handleCd` touches neither the history nor the cursor. -/
theorem handleCd_history (a : Str) (s : Session) :
    (handleCd a s).history = s.history ∧ (handleCd a s).historyIndex = s.historyIndex := by
  unfold handleCd
  simp only
  split_ifs <;> exact ⟨rfl, rfl⟩

/-- The `switch` touches neither the history nor the cursor. -/
theorem dispatch_history (now : Str) (args : List Str) (s : Session) :
    (dispatch now args s).history = s.history ∧
      (dispatch now args s).historyIndex = s.historyIndex := by
  unfold dispatch
  simp only
  split_ifs
  all_goals first
    | exact ⟨rfl, rfl⟩
    | exact handleCd_history _ _

/-- The history and the cursor after `handleEnter`. -/
theorem handleEnter_history (now : Str) (s : Session) :
    (handleEnter now s).history =
        (if trim s.inputValue = [] then s.history
          else recordHistory (trim s.inputValue) s.history) ∧
    (handleEnter now s).historyIndex =
        (if trim s.inputValue = [] then s.historyIndex else -1) := by
  unfold handleEnter
  simp only
  split_ifs
  all_goals first
    | exact ⟨rfl, rfl⟩
    | exact dispatch_history _ _ _

/-- `applyCompletion` touches neither the history nor the cursor. -/
theorem applyCompletion_history (lead typed : Str) (candidates : List Str) (s : Session) :
    (applyCompletion lead typed candidates s).history = s.history ∧
      (applyCompletion lead typed candidates s).historyIndex = s.historyIndex := by
  unfold applyCompletion
  split
  · exact ⟨rfl, rfl⟩
  · exact ⟨rfl, rfl⟩
  · simp only
    split_ifs <;> exact ⟨rfl, rfl⟩

/-- `handleAutocomplete` touches neither the history nor the cursor. -/
theorem handleAutocomplete_history (s : Session) :
    (handleAutocomplete s).history = s.history ∧
      (handleAutocomplete s).historyIndex = s.historyIndex := by
  unfold handleAutocomplete
  simp only
  split_ifs
  · exact ⟨rfl, rfl⟩
  · split
    · exact applyCompletion_history _ _ _ _
    · split
      · exact ⟨rfl, rfl⟩
      · exact applyCompletion_history _ _ _ _

/-- Recording on a history within the bound gives between 1 and 100 entries. -/
theorem recordHistory_length (commandText : Str) (history : List Str)
    (hbound : history.length ≤ 100) :
    1 ≤ (recordHistory commandText history).length ∧
      (recordHistory commandText history).length ≤ 100 := by
  rw [recordHistory_eq_take commandText history hbound]
  simp only [List.length_take, List.length_cons]
  omega

/-- One event keeps the history within 100 entries and the cursor between -1
and the last index. -/
theorem step_invariant (s : Session) (e : Event)
    (hbound : s.history.length ≤ 100)
    (hlow : -1 ≤ s.historyIndex)
    (hhigh : s.historyIndex ≤ (s.history.length : Int) - 1) :
    (step s e).history.length ≤ 100 ∧ -1 ≤ (step s e).historyIndex ∧
      (step s e).historyIndex ≤ ((step s e).history.length : Int) - 1 := by
  cases e with
  | edit value caret => exact ⟨hbound, hlow, hhigh⟩
  | enter now =>
    obtain ⟨h1, h2⟩ := handleEnter_history now s
    simp only [step, h1, h2]
    by_cases hc : trim s.inputValue = []
    · simp only [hc, if_true]
      exact ⟨hbound, hlow, hhigh⟩
    · simp only [hc, if_false]
      have := recordHistory_length (trim s.inputValue) s.history hbound
      omega
  | tab =>
    obtain ⟨h1, h2⟩ := handleAutocomplete_history s
    simp only [step, h1, h2]
    exact ⟨hbound, hlow, hhigh⟩
  | arrowUp =>
    simp only [step, arrowUp]
    split_ifs with h0 h1
    · exact ⟨hbound, hlow, hhigh⟩
    · simp only [placeCursorAtEnd]
      omega
    · simp only [placeCursorAtEnd]
      omega
  | arrowDown =>
    simp only [step, arrowDown]
    split_ifs with h0
    · simp only
      omega
    · simp only [placeCursorAtEnd]
      omega

/-- A sequence of events keeps the bound on the history and the range of the
cursor. -/
theorem run_invariant (events : List Event) (s : Session)
    (hbound : s.history.length ≤ 100)
    (hlow : -1 ≤ s.historyIndex)
    (hhigh : s.historyIndex ≤ (s.history.length : Int) - 1) :
    (run s events).history.length ≤ 100 ∧ -1 ≤ (run s events).historyIndex ∧
      (run s events).historyIndex ≤ ((run s events).history.length : Int) - 1 := by
  induction events generalizing s with
  | nil => exact ⟨hbound, hlow, hhigh⟩
  | cons e es ih =>
    obtain ⟨h1, h2, h3⟩ := step_invariant s e hbound hlow hhigh
    exact ih (step s e) h1 h2 h3

/-- Every reachable session has at most 100 entries and a cursor in range. -/
theorem reachable_invariant (s : Session) (h : Reachable s) :
    s.history.length ≤ 100 ∧ -1 ≤ s.historyIndex ∧
      s.historyIndex ≤ (s.history.length : Int) - 1 := by
  obtain ⟨page, events, rfl⟩ := h
  exact run_invariant events (initialSession page) (by simp [initialSession])
    (by simp [initialSession]) (by simp [initialSession])

/-- The history and the cursor after a non-empty submission. -/
theorem submit_history (now line : Str) (s : Session) (hne : trim line ≠ []) :
    (submit now line s).history = recordHistory (trim line) s.history ∧
      (submit now line s).historyIndex = -1 := by
  have h := handleEnter_history now (typeLine line s)
  have e1 : (typeLine line s).inputValue = line := rfl
  have e2 : (typeLine line s).history = s.history := rfl
  rw [e1, e2, if_neg hne, if_neg hne] at h
  exact h

/-- C8: whatever a non-empty submitted line is, the history after it is the
trimmed line followed by the previous entries in order, cut to 100 entries,
and the cursor is -1; every reachable history has at most 100 entries; a
submission on a full history of 100 entries drops exactly its last (oldest)
entry. The history of a session never has more than 100 entries, which is the
bound under which the first and third parts are stated. -/
theorem history_bounded :
    (∀ (now line : Str) (s : Session),
      s.history.length ≤ 100 → trim line ≠ [] →
      (submit now line s).history = (trim line :: s.history).take 100 ∧
      (submit now line s).historyIndex = -1) ∧
    (∀ s : Session, Reachable s → s.history.length ≤ 100) ∧
    (∀ (now line : Str) (s : Session),
      s.history.length = 100 → trim line ≠ [] →
      (submit now line s).history = trim line :: s.history.dropLast ∧
      (submit now line s).history.length = 100) := by
  refine ⟨?_, fun s h => (reachable_invariant s h).1, ?_⟩
  · intro now line s hbound hne
    obtain ⟨h1, h2⟩ := submit_history now line s hne
    exact ⟨by rw [h1, recordHistory_eq_take _ _ hbound], h2⟩
  · intro now line s hfull hne
    obtain ⟨h1, _⟩ := submit_history now line s hne
    rw [h1, recordHistory_eq, if_pos (by omega)]
    refine ⟨rfl, ?_⟩
    simp only [List.length_cons, List.length_dropLast]
    omega

theorem history_bounded_witness :
    (submit [] " date ".toList (run (initialSession "home".toList)
        [Event.edit "ls".toList 2, Event.enter []])).history =
      ["date".toList, "ls".toList] := by
  rw [(history_bounded.1 [] " date ".toList (run (initialSession "home".toList)
    [Event.edit "ls".toList 2, Event.enter []]) (by decide) (by decide)).1]
  decide

/-- An index between 0 and the last index reads an entry. -/
theorem jsIndex_isSome (history : List Str) (i : Int) (h0 : 0 ≤ i)
    (h1 : i ≤ (history.length : Int) - 1) : ∃ entry, jsIndex history i = some entry := by
  have hlt : i.toNat < history.length := by omega
  refine ⟨history[i.toNat], ?_⟩
  simp only [jsIndex, not_lt.mpr h0, if_false]
  exact List.getElem?_eq_getElem hlt

/-- C9: in every reachable session the cursor lies between -1 and the last
index of the history; so the entry `ArrowUp` reads (when the history is not
empty) and the entry `ArrowDown` reads (when the cursor is positive) exist and
become the pending input; and `ArrowUp` on an empty history changes nothing. -/
theorem history_cursor_in_range :
    (∀ s : Session, Reachable s →
      -1 ≤ s.historyIndex ∧ s.historyIndex ≤ (s.history.length : Int) - 1) ∧
    (∀ s : Session, Reachable s → s.history ≠ [] →
      ∃ entry, jsIndex s.history (arrowUp s).historyIndex = some entry ∧
        (arrowUp s).inputValue = entry) ∧
    (∀ s : Session, Reachable s → 0 < s.historyIndex →
      ∃ entry, jsIndex s.history (arrowDown s).historyIndex = some entry ∧
        (arrowDown s).inputValue = entry) ∧
    (∀ s : Session, s.history = [] → arrowUp s = s) := by
  refine ⟨fun s h => (reachable_invariant s h).2, ?_, ?_, ?_⟩
  · intro s hr hne
    obtain ⟨_, hlow, hhigh⟩ := reachable_invariant s hr
    have hlen : s.history.length ≠ 0 := fun h => hne (List.length_eq_zero.mp h)
    have hpos : 0 < s.history.length := Nat.pos_of_ne_zero hlen
    simp only [arrowUp, hlen, if_false, placeCursorAtEnd]
    split_ifs with h1
    · obtain ⟨entry, he⟩ := jsIndex_isSome s.history (s.historyIndex + 1) (by omega) (by omega)
      exact ⟨entry, he, by simp [he, assignedValue]⟩
    · obtain ⟨entry, he⟩ := jsIndex_isSome s.history s.historyIndex (by omega) (by omega)
      exact ⟨entry, he, by simp [he, assignedValue]⟩
  · intro s hr hpos
    obtain ⟨_, hlow, hhigh⟩ := reachable_invariant s hr
    simp only [arrowDown, not_le.mpr hpos, if_false, placeCursorAtEnd]
    obtain ⟨entry, he⟩ := jsIndex_isSome s.history (s.historyIndex - 1) (by omega) (by omega)
    exact ⟨entry, he, by simp [he]⟩
  · intro s hs
    simp [arrowUp, hs]

theorem history_cursor_in_range_witness :
    Reachable (run (initialSession "home".toList)
      [Event.edit "ls".toList 2, Event.enter [], Event.edit "date".toList 4, Event.enter [],
       Event.arrowUp, Event.arrowUp, Event.arrowUp]) ∧
    (run (initialSession "home".toList)
      [Event.edit "ls".toList 2, Event.enter [], Event.edit "date".toList 4, Event.enter [],
       Event.arrowUp, Event.arrowUp, Event.arrowUp]).historyIndex = 1 ∧
    (-1 ≤ (run (initialSession "home".toList)
      [Event.edit "ls".toList 2, Event.enter [], Event.edit "date".toList 4, Event.enter [],
       Event.arrowUp, Event.arrowUp, Event.arrowUp]).historyIndex ∧
     (run (initialSession "home".toList)
      [Event.edit "ls".toList 2, Event.enter [], Event.edit "date".toList 4, Event.enter [],
       Event.arrowUp, Event.arrowUp, Event.arrowUp]).historyIndex ≤
      (((run (initialSession "home".toList)
      [Event.edit "ls".toList 2, Event.enter [], Event.edit "date".toList 4, Event.enter [],
       Event.arrowUp, Event.arrowUp, Event.arrowUp]).history.length : Nat) : Int) - 1) :=
  ⟨⟨_, _, rfl⟩, by decide, history_cursor_in_range.1 _ ⟨_, _, rfl⟩⟩

/-- `n` presses of `ArrowUp` that stay within the history add `n` to the cursor. -/
theorem arrowUp_iterate_inside (n : Nat) (s : Session)
    (hroom : s.historyIndex + (n : Int) ≤ (s.history.length : Int) - 1)
    (hlow : -1 ≤ s.historyIndex) :
    (Nat.iterate arrowUp n s).historyIndex = s.historyIndex + (n : Int) ∧
      (Nat.iterate arrowUp n s).history = s.history := by
  induction n generalizing s with
  | zero => simp
  | succ m ih =>
    rw [Function.iterate_succ_apply]
    have hlen : s.history.length ≠ 0 := by
      intro h0
      rw [h0] at hroom
      push_cast at hroom
      omega
    have hlt : s.historyIndex < (s.history.length : Int) - 1 := by
      push_cast at hroom
      omega
    have hidx : (arrowUp s).historyIndex = s.historyIndex + 1 := by
      simp [arrowUp, hlen, hlt, placeCursorAtEnd]
    have hhist : (arrowUp s).history = s.history := by
      simp [arrowUp, hlen, placeCursorAtEnd]
    obtain ⟨h1, h2⟩ := ih (arrowUp s) (by rw [hidx, hhist]; push_cast at hroom; omega)
      (by rw [hidx]; omega)
    rw [h1, h2, hidx, hhist]
    push_cast
    exact ⟨by ring, rfl⟩

/-- One press of `ArrowDown` at a positive cursor. -/
theorem arrowDown_of_pos (s : Session) (h : 0 < s.historyIndex) :
    (arrowDown s).historyIndex = s.historyIndex - 1 ∧
      (arrowDown s).history = s.history ∧
      (arrowDown s).inputValue = (jsIndex s.history (s.historyIndex - 1)).getD [] := by
  simp [arrowDown, not_le.mpr h, placeCursorAtEnd]

/-- `n` presses of `ArrowDown` from a cursor of at least `n` subtract `n` from
it and show the entry it reaches. -/
theorem arrowDown_iterate_inside (n : Nat) (s : Session)
    (hroom : (n : Int) ≤ s.historyIndex) :
    (Nat.iterate arrowDown n s).historyIndex = s.historyIndex - (n : Int) ∧
      (Nat.iterate arrowDown n s).history = s.history ∧
      (1 ≤ n → (Nat.iterate arrowDown n s).inputValue =
        (jsIndex s.history (s.historyIndex - (n : Int))).getD []) := by
  induction n with
  | zero => simp
  | succ m ih =>
    rw [Function.iterate_succ_apply']
    push_cast at hroom
    obtain ⟨h1, h2, _⟩ := ih (by omega)
    obtain ⟨e1, e2, e3⟩ := arrowDown_of_pos (Nat.iterate arrowDown m s) (by rw [h1]; omega)
    rw [h1] at e1
    rw [h2] at e2
    rw [h1, h2] at e3
    have harith : s.historyIndex - (m : Int) - 1 = s.historyIndex - ((m + 1 : Nat) : Int) := by
      push_cast
      ring
    rw [harith] at e1 e3
    exact ⟨e1, e2, fun _ => e3⟩

/-- `n` presses of `ArrowUp` add at most `n` to the cursor. -/
theorem arrowUp_iterate_le (n : Nat) (s : Session) :
    (Nat.iterate arrowUp n s).historyIndex ≤ s.historyIndex + (n : Int) := by
  induction n generalizing s with
  | zero => simp
  | succ m ih =>
    rw [Function.iterate_succ_apply]
    have hstep : (arrowUp s).historyIndex ≤ s.historyIndex + 1 := by
      simp only [arrowUp]
      split_ifs
      · omega
      · simp only [placeCursorAtEnd]
        omega
      · simp only [placeCursorAtEnd]
        omega
    have := ih (arrowUp s)
    push_cast
    omega

/-- `n ≥ 1` presses of `ArrowDown` from a cursor below `n` end in the live
state with an empty input. -/
theorem arrowDown_iterate_bottom (n : Nat) (s : Session)
    (hn : 1 ≤ n) (hnear : s.historyIndex ≤ (n : Int) - 1) :
    (Nat.iterate arrowDown n s).historyIndex = -1 ∧
      (Nat.iterate arrowDown n s).inputValue = [] := by
  induction n generalizing s with
  | zero => omega
  | succ m ih =>
    rw [Function.iterate_succ_apply]
    push_cast at hnear
    rcases Nat.eq_zero_or_pos m with rfl | hm
    · have h0 : s.historyIndex ≤ 0 := by omega
      simp [arrowDown, h0]
    · apply ih (arrowDown s) hm
      simp only [arrowDown]
      split_ifs <;> simp only [placeCursorAtEnd] <;> omega

/-- C10 fails as stated: after `a` then `b` were submitted and `ArrowUp` was
pressed twice, the session browses the oldest entry (cursor 1, pending input
`a`); one more `ArrowUp` and one `ArrowDown` leave the pending input `b`. -/
theorem recall_round_trip_counterexample :
    (run (initialSession "home".toList)
      [Event.edit "a".toList 1, Event.enter [], Event.edit "b".toList 1, Event.enter [],
       Event.arrowUp, Event.arrowUp]).historyIndex = 1 ∧
    jsIndex (run (initialSession "home".toList)
      [Event.edit "a".toList 1, Event.enter [], Event.edit "b".toList 1, Event.enter [],
       Event.arrowUp, Event.arrowUp]).history 1 = some "a".toList ∧
    (run (initialSession "home".toList)
      [Event.edit "a".toList 1, Event.enter [], Event.edit "b".toList 1, Event.enter [],
       Event.arrowUp, Event.arrowUp]).inputValue = "a".toList ∧
    (Nat.iterate arrowDown 1 (Nat.iterate arrowUp 1 (run (initialSession "home".toList)
      [Event.edit "a".toList 1, Event.enter [], Event.edit "b".toList 1, Event.enter [],
       Event.arrowUp, Event.arrowUp]))).inputValue = "b".toList ∧
    (Nat.iterate arrowDown 1 (Nat.iterate arrowUp 1 (run (initialSession "home".toList)
      [Event.edit "a".toList 1, Event.enter [], Event.edit "b".toList 1, Event.enter [],
       Event.arrowUp, Event.arrowUp]))).inputValue ≠
    (run (initialSession "home".toList)
      [Event.edit "a".toList 1, Event.enter [], Event.edit "b".toList 1, Event.enter [],
       Event.arrowUp, Event.arrowUp]).inputValue := by
  decide

/-- C10, amended: from a browsing session (cursor `k ≥ 0`, pending input
`history[k]`), `n ≥ 1` presses of `ArrowUp` that stay within the history
(`k + n ≤ history.length - 1`) followed by `n` presses of `ArrowDown` give back
the pending input and the cursor; from a live session (cursor -1) they leave
the pending input empty and the cursor -1, whatever the draft was. -/
theorem recall_round_trip :
    (∀ (s : Session) (n : Nat) (k : Int),
      1 ≤ n → 0 ≤ k → s.historyIndex = k →
      jsIndex s.history k = some s.inputValue →
      k + (n : Int) ≤ (s.history.length : Int) - 1 →
      (Nat.iterate arrowDown n (Nat.iterate arrowUp n s)).inputValue = s.inputValue ∧
      (Nat.iterate arrowDown n (Nat.iterate arrowUp n s)).historyIndex = k) ∧
    (∀ (s : Session) (n : Nat),
      1 ≤ n → s.historyIndex = -1 →
      (Nat.iterate arrowDown n (Nat.iterate arrowUp n s)).inputValue = [] ∧
      (Nat.iterate arrowDown n (Nat.iterate arrowUp n s)).historyIndex = -1) := by
  constructor
  · intro s n k hn hk hidx hentry hroom
    obtain ⟨u1, u2⟩ := arrowUp_iterate_inside n s (by rw [hidx]; exact hroom) (by omega)
    obtain ⟨d1, d2, d3⟩ := arrowDown_iterate_inside n (Nat.iterate arrowUp n s)
      (by rw [u1]; omega)
    refine ⟨?_, ?_⟩
    · rw [d3 hn, u1, u2, hidx]
      simp [hentry]
    · rw [d1, u1, hidx]
      ring
  · intro s n hn hidx
    have hle := arrowUp_iterate_le n s
    have hsucc := arrowDown_iterate_bottom n (Nat.iterate arrowUp n s) hn (by omega)
    exact ⟨hsucc.2, hsucc.1⟩

theorem recall_round_trip_witness :
    (Nat.iterate arrowDown 1 (Nat.iterate arrowUp 1 (run (initialSession "home".toList)
      [Event.edit "a".toList 1, Event.enter [], Event.edit "b".toList 1, Event.enter [],
       Event.arrowUp]))).inputValue = "b".toList ∧
    (Nat.iterate arrowDown 2 (Nat.iterate arrowUp 2 (run (initialSession "home".toList)
      [Event.edit "a".toList 1, Event.enter [],
       Event.edit "draft".toList 5]))).inputValue = [] := by
  constructor
  · rw [(recall_round_trip.1 (run (initialSession "home".toList)
      [Event.edit "a".toList 1, Event.enter [], Event.edit "b".toList 1, Event.enter [],
       Event.arrowUp]) 1 0 (by decide) (by decide) (by decide) (by decide) (by decide)).1]
    decide
  · exact (recall_round_trip.2 (run (initialSession "home".toList)
      [Event.edit "a".toList 1, Event.enter [],
       Event.edit "draft".toList 5]) 2 (by decide) (by decide)).1

/-- One press of `ArrowUp` at the oldest entry keeps the cursor and shows that
entry. -/
theorem arrowUp_at_oldest (s : Session) (hne : s.history ≠ [])
    (htop : s.historyIndex = (s.history.length : Int) - 1) :
    (arrowUp s).historyIndex = s.historyIndex ∧ (arrowUp s).history = s.history ∧
      jsIndex s.history s.historyIndex = some (arrowUp s).inputValue := by
  have hlen : s.history.length ≠ 0 := fun h => hne (List.length_eq_zero.mp h)
  have hnot : ¬ s.historyIndex < (s.history.length : Int) - 1 := by omega
  obtain ⟨entry, he⟩ := jsIndex_isSome s.history s.historyIndex (by omega) (by omega)
  simp [arrowUp, hlen, hnot, placeCursorAtEnd, he, assignedValue]

/-- C11: at the oldest entry of a non-empty history (cursor
`history.length - 1`), any number of `ArrowUp` presses keeps the cursor and the
history, and after each press the pending input is the oldest entry
`history[history.length - 1]`; in the live state (cursor -1), any number of
`ArrowDown` presses keeps the cursor at -1, and after each press the pending
input is the empty string. -/
theorem recall_idempotent_at_boundaries :
    (∀ (s : Session) (n : Nat),
      s.history ≠ [] → s.historyIndex = (s.history.length : Int) - 1 →
      (Nat.iterate arrowUp n s).historyIndex = (s.history.length : Int) - 1 ∧
      (Nat.iterate arrowUp n s).history = s.history ∧
      (1 ≤ n → jsIndex s.history ((s.history.length : Int) - 1) =
        some (Nat.iterate arrowUp n s).inputValue)) ∧
    (∀ (s : Session) (n : Nat),
      s.historyIndex = -1 →
      (Nat.iterate arrowDown n s).historyIndex = -1 ∧
      (Nat.iterate arrowDown n s).history = s.history ∧
      (1 ≤ n → (Nat.iterate arrowDown n s).inputValue = [])) := by
  constructor
  · intro s n hne htop
    induction n with
    | zero => exact ⟨htop, rfl, fun h => absurd h (by decide)⟩
    | succ m ih =>
      obtain ⟨h1, h2, _⟩ := ih
      rw [Function.iterate_succ_apply']
      obtain ⟨e1, e2, e3⟩ := arrowUp_at_oldest (Nat.iterate arrowUp m s)
        (by rw [h2]; exact hne) (by rw [h1, h2])
      rw [h1] at e1
      rw [h2] at e2
      rw [h1, h2] at e3
      exact ⟨e1, e2, fun _ => e3⟩
  · intro s n hlive
    induction n with
    | zero => exact ⟨hlive, rfl, fun h => absurd h (by decide)⟩
    | succ m ih =>
      obtain ⟨h1, h2, _⟩ := ih
      rw [Function.iterate_succ_apply']
      have hle : (Nat.iterate arrowDown m s).historyIndex ≤ 0 := by
        rw [h1]
        decide
      simp only [arrowDown, hle, if_true]
      exact ⟨trivial, h2, fun _ => trivial⟩

theorem recall_idempotent_at_boundaries_witness :
    jsIndex ["date".toList, "ls".toList] 1 =
      some (Nat.iterate arrowUp 3 (run (initialSession "home".toList)
        [Event.edit "ls".toList 2, Event.enter [], Event.edit "date".toList 4, Event.enter [],
         Event.arrowUp, Event.arrowUp])).inputValue ∧
    (Nat.iterate arrowDown 2 (run (initialSession "home".toList)
        [Event.edit "ls".toList 2, Event.enter [],
         Event.edit "draft".toList 5])).inputValue = [] :=
  ⟨(recall_idempotent_at_boundaries.1 (run (initialSession "home".toList)
        [Event.edit "ls".toList 2, Event.enter [], Event.edit "date".toList 4, Event.enter [],
         Event.arrowUp, Event.arrowUp]) 3 (by decide) (by decide)).2.2 (by decide),
   (recall_idempotent_at_boundaries.2 (run (initialSession "home".toList)
        [Event.edit "ls".toList 2, Event.enter [],
         Event.edit "draft".toList 5]) 2 (by decide)).2.2 (by decide)⟩

/-- The `clear` case of the `switch`. -/
theorem dispatch_clear (now : Str) (args : List Str) (s : Session)
    (hcmd : toLowerCase (args.headD []) = "clear".toList) :
    dispatch now args s = { s with historyContainer := [] } := by
  unfold dispatch
  simp only [hcmd]
  rw [if_neg (by decide), if_neg (by decide), if_neg (by decide), if_neg (by decide),
    if_pos trivial]

/-- One press of `ArrowUp` below the oldest entry moves the cursor up by one
and shows the entry it reaches. -/
theorem arrowUp_of_room (s : Session)
    (hlow : -1 ≤ s.historyIndex)
    (hroom : s.historyIndex < (s.history.length : Int) - 1) :
    (arrowUp s).historyIndex = s.historyIndex + 1 ∧ (arrowUp s).history = s.history ∧
      (arrowUp s).inputValue = assignedValue (jsIndex s.history (s.historyIndex + 1)) := by
  have hlen : s.history.length ≠ 0 := by
    intro h0
    rw [h0] at hroom
    push_cast at hroom
    omega
  simp [arrowUp, hlen, hroom, placeCursorAtEnd]

/-- C12 fails as stated: the first token of the line `clear` followed by a
blank and the letter U+00E9 is `clear`, yet the line is rejected by the
character test, so the output keeps the echo and the error line; and on a full
history of 100 commands a submitted `clear` evicts the oldest one. -/
theorem clear_counterexample :
    (toLowerCase ((tokenize (trim ("clear ".toList ++ [Char.ofNat 233]))).headD []) =
        "clear".toList ∧
      (submit [] ("clear ".toList ++ [Char.ofNat 233])
          (initialSession "home".toList)).historyContainer =
        [OutputNode.echo ("clear ".toList ++ [Char.ofNat 233]),
         OutputNode.output
           ["Unsupported control characters detected in input.".toList] true]) ∧
    ((Nat.iterate (submit [] "ls".toList) 99
        (submit [] "date".toList (initialSession "home".toList))).history.length = 100 ∧
      "date".toList ∈ (Nat.iterate (submit [] "ls".toList) 99
        (submit [] "date".toList (initialSession "home".toList))).history ∧
      "date".toList ∉ (submit [] "clear".toList (Nat.iterate (submit [] "ls".toList) 99
        (submit [] "date".toList (initialSession "home".toList)))).history) := by
  refine ⟨⟨by decide, by decide⟩, ?_, ?_, ?_⟩
  · set_option maxRecDepth 100000 in decide
  · set_option maxRecDepth 100000 in decide
  · set_option maxRecDepth 100000 in decide

/-- C12, amended: a line that passes validation and whose lower-cased first
token is `clear` leaves the output region empty and schedules no navigation;
the history changes only by the recording of the line itself, as for every
submission; when fewer than 100 commands were recorded before, they all stay,
in order, behind the new entry, and after the `ArrowUp` that recalls the
`clear` line, `k + 1` further presses recall the `k`-th earlier command. -/
theorem clear_keeps_history (now line : Str) (s : Session)
    (hne : trim line ≠ [])
    (hlen : jsLength (trim line) ≤ MAX_COMMAND_LENGTH)
    (hascii : ∀ ch ∈ trim line, isPrintableAscii ch = true)
    (hcmd : toLowerCase ((tokenize (trim line)).headD []) = "clear".toList) :
    submit now line s =
      { currentPage := s.currentPage
        history := recordHistory (trim line) s.history
        historyIndex := -1
        inputValue := []
        selectionStart := 0
        historyContainer := []
        fadeOut := s.fadeOut
        navigations := s.navigations } ∧
    (s.history.length < 100 →
      (submit now line s).history = trim line :: s.history ∧
      (Nat.iterate arrowUp 1 (submit now line s)).inputValue = trim line ∧
      ∀ (k : Nat) (entry : Str), s.history[k]? = some entry →
        (Nat.iterate arrowUp (k + 2) (submit now line s)).inputValue = entry) := by
  have key : submit now line s =
      { currentPage := s.currentPage
        history := recordHistory (trim line) s.history
        historyIndex := -1
        inputValue := []
        selectionStart := 0
        historyContainer := []
        fadeOut := s.fadeOut
        navigations := s.navigations } := by
    rw [submit_eq_dispatch now line s hne hlen hascii, dispatch_clear now _ _ hcmd]
    simp [recorded]
  refine ⟨key, fun hroom => ?_⟩
  have hrec : recordHistory (trim line) s.history = trim line :: s.history := by
    rw [recordHistory_eq, if_neg (by omega)]
  have hhist : (submit now line s).history = trim line :: s.history := by
    rw [key, hrec]
  have hidx : (submit now line s).historyIndex = -1 := by rw [key]
  have hafter : ∀ (k : Nat) (entry : Str), (trim line :: s.history)[k]? = some entry →
      (Nat.iterate arrowUp (k + 1) (submit now line s)).inputValue = entry := by
    intro k entry hentry
    have hk : k < (trim line :: s.history).length := by
      by_contra hge
      rw [List.getElem?_eq_none (by omega)] at hentry
      exact Option.noConfusion hentry
    obtain ⟨u1, u2⟩ := arrowUp_iterate_inside k (submit now line s)
      (by rw [hidx, hhist]; simp only [List.length_cons] at hk ⊢; push_cast; omega)
      (by rw [hidx])
    rw [Function.iterate_succ_apply']
    obtain ⟨_, _, e3⟩ := arrowUp_of_room (Nat.iterate arrowUp k (submit now line s))
      (by rw [u1, hidx]; omega)
      (by rw [u1, u2, hidx, hhist]; simp only [List.length_cons] at hk ⊢; push_cast; omega)
    rw [e3, u1, u2, hidx, hhist]
    have hcast : (-1 : Int) + (k : Int) + 1 = (k : Int) := by ring
    rw [hcast]
    have hnonneg : ¬ ((k : Int) < 0) := by omega
    simp [jsIndex, assignedValue, hnonneg, hentry]
  refine ⟨hhist, hafter 0 (trim line) (by simp), ?_⟩
  intro k entry hentry
  exact hafter (k + 1) entry (by simpa using hentry)

theorem clear_keeps_history_witness :
    (submit [] " Clear now".toList (run (initialSession "home".toList)
        [Event.edit "ls".toList 2, Event.enter []])).historyContainer = [] ∧
    (Nat.iterate arrowUp 2 (submit [] " Clear now".toList (run (initialSession "home".toList)
        [Event.edit "ls".toList 2, Event.enter []]))).inputValue = "ls".toList := by
  have h := clear_keeps_history [] " Clear now".toList (run (initialSession "home".toList)
    [Event.edit "ls".toList 2, Event.enter []]) (by decide) (by decide) (by decide) (by decide)
  refine ⟨?_, (h.2 (by decide)).2.2 0 "ls".toList (by decide)⟩
  rw [h.1]

/-- `startsWith` is the prefix relation on lists. -/
theorem startsWith_iff (s p : Str) : startsWith s p = true ↔ p <+: s := by
  simp [startsWith, List.isPrefixOf_iff_prefix]

/-- A proper prefix of a list is a prefix of the list without its last element. -/
theorem prefix_dropLast_of_ne {α : Type} {q pre : List α} (hq : q <+: pre) (hne : q ≠ pre) :
    q <+: pre.dropLast := by
  obtain ⟨t, rfl⟩ := hq
  have ht : t ≠ [] := by
    rintro rfl
    exact hne (by simp)
  rw [List.dropLast_append_of_ne_nil _ ht]
  exact List.prefix_append _ _

/-- With at least `pre.length` rounds, the inner loop of `commonPrefix` stops
on the longest prefix of `pre` that is a prefix of `value`. -/
theorem shrinkPrefix_spec {α : Type} [DecidableEq α] (value : List α) (fuel : Nat)
    (pre : List α) (hfuel : pre.length ≤ fuel) :
    shrinkPrefix value fuel pre <+: pre ∧
    shrinkPrefix value fuel pre <+: value ∧
    ∀ q : List α, q <+: pre → q <+: value → q <+: shrinkPrefix value fuel pre := by
  induction fuel generalizing pre with
  | zero =>
    have hnil : pre = [] := List.length_eq_zero.mp (Nat.le_zero.mp hfuel)
    subst hnil
    simp [shrinkPrefix]
  | succ m ih =>
    by_cases hloop : (!pre.isPrefixOf value && decide (pre.length > 0)) = true
    · have hred : shrinkPrefix value (m + 1) pre = shrinkPrefix value m pre.dropLast := by
        simp only [shrinkPrefix, hloop, if_true]
      rw [hred]
      simp only [Bool.and_eq_true, Bool.not_eq_true', decide_eq_true_eq] at hloop
      obtain ⟨hnot, hpos⟩ := hloop
      have hlen : pre.dropLast.length ≤ m := by
        rw [List.length_dropLast]
        omega
      obtain ⟨h1, h2, h3⟩ := ih pre.dropLast hlen
      refine ⟨h1.trans (List.dropLast_prefix pre), h2, ?_⟩
      intro q hq hv
      have hne : q ≠ pre := by
        rintro rfl
        have := List.isPrefixOf_iff_prefix.mpr hv
        rw [this] at hnot
        exact Bool.noConfusion hnot
      exact h3 q (prefix_dropLast_of_ne hq hne) hv
    · have hred : shrinkPrefix value (m + 1) pre = pre := by
        simp only [shrinkPrefix, hloop, if_false]
        rfl
      rw [hred]
      refine ⟨List.prefix_refl pre, ?_, fun q hq _ => hq⟩
      simp only [Bool.and_eq_true, Bool.not_eq_true', decide_eq_true_eq, not_and] at hloop
      by_cases hs : pre.isPrefixOf value = true
      · exact List.isPrefixOf_iff_prefix.mp hs
      · have hzero : ¬ pre.length > 0 := hloop (Bool.eq_false_iff.mpr hs)
        have hnil : pre = [] := List.length_eq_zero.mp (by omega)
        subst hnil
        exact List.nil_prefix

/-- Two lists that are prefixes of each other are equal. -/
theorem prefix_antisymm {α : Type} {a b : List α} (hab : a <+: b) (hba : b <+: a) : a = b :=
  List.IsPrefix.eq_of_length_le hab hba.length_le

/-- The loop `for (index = 1; ...)` of `commonPrefix`, started on `first`:
the result is a common prefix of `first` and of the remaining values, and every
common prefix is a prefix of it. -/
theorem commonPrefix_fold_spec {α : Type} [DecidableEq α] (others : List (List α))
    (first : List α) :
    let result := others.foldl (fun pre value => shrinkPrefix value pre.length pre) first
    result <+: first ∧ (∀ v ∈ others, result <+: v) ∧
      ∀ q : List α, q <+: first → (∀ v ∈ others, q <+: v) → q <+: result := by
  induction others generalizing first with
  | nil =>
    simp only [List.foldl_nil]
    exact ⟨List.prefix_refl first, fun v hv => absurd hv (List.not_mem_nil v), fun q hq _ => hq⟩
  | cons value rest ih =>
    simp only [List.foldl_cons]
    obtain ⟨s1, s2, s3⟩ := shrinkPrefix_spec value first.length first (Nat.le_refl _)
    obtain ⟨h1, h2, h3⟩ := ih (shrinkPrefix value first.length first)
    refine ⟨h1.trans s1, ?_, ?_⟩
    · intro v hv
      rcases List.mem_cons.mp hv with rfl | hmem
      · exact h1.trans s2
      · exact h2 v hmem
    · intro q hq hall
      exact h3 q (s3 q hq (hall value (List.mem_cons_self _ _)))
        (fun v hv => hall v (List.mem_cons_of_mem _ hv))

/-- The result of `commonPrefix` on a non-empty list is a prefix of every value and
every common prefix of the values is a prefix of it. -/
theorem commonPrefix_spec {α : Type} [DecidableEq α] (values : List (List α))
    (hne : values ≠ []) :
    (∀ v ∈ values, commonPrefix values <+: v) ∧
      ∀ q : List α, (∀ v ∈ values, q <+: v) → q <+: commonPrefix values := by
  cases values with
  | nil => exact absurd rfl hne
  | cons first others =>
    obtain ⟨h1, h2, h3⟩ := commonPrefix_fold_spec others first
    refine ⟨?_, ?_⟩
    · intro v hv
      rcases List.mem_cons.mp hv with rfl | hmem
      · exact h1
      · exact h2 v hmem
    · intro q hall
      exact h3 q (hall first (List.mem_cons_self _ _))
        (fun v hv => hall v (List.mem_cons_of_mem _ hv))

/-- The number of UTF-16 code units of a string is its `length`. -/
theorem length_toCodeUnits (text : Str) : (toCodeUnits text).length = jsLength text := by
  induction text with
  | nil => rfl
  | cons c cs ih =>
    simp only [toCodeUnits, jsLength, List.map_cons, List.sum_cons] at ih ⊢
    split <;> simp only [List.length_cons, ih] <;> omega

/-- C17: on a non-empty list of strings, each given by its units (the UTF-16
code units in the program, or any other unit), `commonPrefix` returns the
longest common prefix: its result is a prefix of every string of the list,
every string that is a prefix of all of them is a prefix of the result, so
none is longer; the inner loop stops within `pre.length` rounds (its exit test
holds on the result, and more rounds give the same result); on the empty list
the result is the empty string. On the code units of U+1F600 and U+1F601 the
result is the one unit D83D they share. -/
theorem commonPrefix_longest :
    (∀ (α : Type) [DecidableEq α] (values : List (List α)), values ≠ [] →
      (∀ v ∈ values, commonPrefix values <+: v) ∧
      (∀ q : List α, (∀ v ∈ values, q <+: v) →
        q <+: commonPrefix values ∧ q.length ≤ (commonPrefix values).length)) ∧
    (∀ (α : Type) [DecidableEq α] (value pre : List α) (fuel : Nat), pre.length ≤ fuel →
      shrinkPrefix value fuel pre = shrinkPrefix value pre.length pre ∧
      ((shrinkPrefix value pre.length pre).isPrefixOf value = true ∨
        (shrinkPrefix value pre.length pre).length = 0)) ∧
    (∀ (α : Type) [DecidableEq α], commonPrefix ([] : List (List α)) = []) ∧
    (∀ values : List Str, values ≠ [] →
      (∀ v ∈ values, commonPrefix (values.map toCodeUnits) <+: toCodeUnits v) ∧
      (∀ q : List Nat, (∀ v ∈ values, q <+: toCodeUnits v) →
        q <+: commonPrefix (values.map toCodeUnits))) ∧
    commonPrefix [toCodeUnits [Char.ofNat 0x1F600], toCodeUnits [Char.ofNat 0x1F601]] =
      [0xD83D] := by
  refine ⟨?_, ?_, fun α _ => rfl, ?_, by decide⟩
  · intro α _ values hne
    obtain ⟨h1, h2⟩ := commonPrefix_spec values hne
    refine ⟨h1, ?_⟩
    intro q hall
    exact ⟨h2 q hall, (h2 q hall).length_le⟩
  · intro α _ value pre fuel hfuel
    obtain ⟨a1, a2, a3⟩ := shrinkPrefix_spec value fuel pre hfuel
    obtain ⟨b1, b2, b3⟩ := shrinkPrefix_spec value pre.length pre (Nat.le_refl _)
    exact ⟨prefix_antisymm (b3 _ a1 a2) (a3 _ b1 b2),
      Or.inl (List.isPrefixOf_iff_prefix.mpr b2)⟩
  · intro values hne
    have hne' : values.map toCodeUnits ≠ [] := by
      intro h
      exact hne (List.map_eq_nil_iff.mp h)
    obtain ⟨h1, h2⟩ := commonPrefix_spec (values.map toCodeUnits) hne'
    refine ⟨fun v hv => h1 _ (List.mem_map_of_mem _ hv), ?_⟩
    intro q hall
    apply h2
    intro u hu
    obtain ⟨v, hv, rfl⟩ := List.mem_map.mp hu
    exact hall v hv

theorem commonPrefix_longest_witness :
    ["certs".toList, "contact".toList] ≠ [] ∧
    commonPrefix (["certs".toList, "contact".toList].map toCodeUnits) <+:
      toCodeUnits "contact".toList ∧
    commonPrefix (["certs".toList, "contact".toList].map toCodeUnits) =
      toCodeUnits "c".toList :=
  ⟨by decide,
   (commonPrefix_longest.2.2.2.1 ["certs".toList, "contact".toList] (by decide)).1
     "contact".toList (by decide),
   by decide⟩

/-- A text without whitespace has an empty leading whitespace run. -/
theorem takeWhile_whitespace_of_none (typed : Str)
    (hnone : ∀ ch ∈ typed, isWhitespace ch = false) :
    typed.takeWhile isWhitespace = [] ∧ typed.dropWhile isWhitespace = typed := by
  cases typed with
  | nil => exact ⟨rfl, rfl⟩
  | cons c cs =>
    have hc : isWhitespace c = false := hnone c (List.mem_cons_self _ _)
    simp [List.takeWhile, List.dropWhile, hc]

/-- The leading whitespace run of `lead ++ rest`, when `lead` is whitespace and
`rest` does not start with whitespace. -/
theorem takeWhile_lead (lead rest : Str)
    (hlead : ∀ ch ∈ lead, isWhitespace ch = true)
    (hrest : rest.takeWhile isWhitespace = []) :
    (lead ++ rest).takeWhile isWhitespace = lead ∧
      (lead ++ rest).dropWhile isWhitespace = rest.dropWhile isWhitespace := by
  constructor
  · rw [List.takeWhile_append_of_pos hlead, hrest, List.append_nil]
  · rw [List.dropWhile_append_of_pos hlead]

/-- A text without whitespace passes the test `all (not whitespace)`. -/
theorem all_not_whitespace (typed : Str) (hnone : ∀ ch ∈ typed, isWhitespace ch = false) :
    typed.all (fun x => !isWhitespace x) = true := by
  rw [List.all_eq_true]
  intro x hx
  simp [hnone x hx]

/-- The command pattern matches a whitespace run followed by a run without
whitespace, and gives back the two runs. -/
theorem matchCommand_eq (lead typed : Str)
    (hlead : ∀ ch ∈ lead, isWhitespace ch = true)
    (hnone : ∀ ch ∈ typed, isWhitespace ch = false) :
    matchCommand (lead ++ typed) = some (lead, typed) := by
  obtain ⟨t1, t2⟩ := takeWhile_whitespace_of_none typed hnone
  obtain ⟨l1, l2⟩ := takeWhile_lead lead typed hlead t1
  simp only [matchCommand, l1, l2, t2, all_not_whitespace typed hnone, if_true]

/-- The `cd` pattern does not match a whitespace run followed by a run without
whitespace. -/
theorem matchCd_eq_none (lead typed : Str)
    (hlead : ∀ ch ∈ lead, isWhitespace ch = true)
    (hnone : ∀ ch ∈ typed, isWhitespace ch = false) :
    matchCd (lead ++ typed) = none := by
  obtain ⟨t1, t2⟩ := takeWhile_whitespace_of_none typed hnone
  obtain ⟨l1, l2⟩ := takeWhile_lead lead typed hlead t1
  unfold matchCd
  simp only [l1, l2, t2]
  match typed, hnone with
  | [], _ => rfl
  | [_], _ => rfl
  | c :: d :: rest, hnone =>
    have hrest : ∀ ch ∈ rest, isWhitespace ch = false := fun ch hch =>
      hnone ch (List.mem_cons_of_mem _ (List.mem_cons_of_mem _ hch))
    obtain ⟨r1, _⟩ := takeWhile_whitespace_of_none rest hrest
    simp only [r1, ne_eq, not_true_eq_false, false_and, if_false]
    split <;> rfl

/-- The `cd` pattern matches a whitespace run, `cd` in either case, a non-empty
whitespace run and a run without whitespace, and gives back the text before
the last run and that run. -/
theorem matchCd_eq (lead gap typed : Str) (c d : Char)
    (hlead : ∀ ch ∈ lead, isWhitespace ch = true)
    (hc : c = 'c' ∨ c = 'C') (hd : d = 'd' ∨ d = 'D')
    (hgap : ∀ ch ∈ gap, isWhitespace ch = true) (hgapne : gap ≠ [])
    (hnone : ∀ ch ∈ typed, isWhitespace ch = false) :
    matchCd (lead ++ [c, d] ++ gap ++ typed) = some (lead ++ [c, d] ++ gap, typed) := by
  obtain ⟨t1, t2⟩ := takeWhile_whitespace_of_none typed hnone
  have hcws : isWhitespace c = false := by
    rcases hc with rfl | rfl <;> decide
  have hshape : lead ++ [c, d] ++ gap ++ typed = lead ++ (c :: d :: (gap ++ typed)) := by
    simp
  have hstart : (c :: d :: (gap ++ typed)).takeWhile isWhitespace = [] := by
    simp [List.takeWhile, hcws]
  obtain ⟨l1, l2⟩ := takeWhile_lead lead (c :: d :: (gap ++ typed)) hlead hstart
  have hdrop : (c :: d :: (gap ++ typed)).dropWhile isWhitespace = c :: d :: (gap ++ typed) := by
    simp [List.dropWhile, hcws]
  obtain ⟨g1, g2⟩ := takeWhile_lead gap typed hgap t1
  unfold matchCd
  rw [hshape]
  simp only [l1, l2, hdrop, g1, g2, t2, hc, hd, and_self, if_true, ne_eq, hgapne,
    not_false_eq_true, all_not_whitespace typed hnone]

/-- With no whitespace right of the caret and the `cd` pattern matching the
text left of it, `handleAutocomplete` completes among the nav targets and the
aliases. -/
theorem handleAutocomplete_cd (s : Session) (lead typed : Str)
    (hright : (s.inputValue.drop s.selectionStart).any isWhitespace = false)
    (hmatch : matchCd (s.inputValue.take s.selectionStart) = some (lead, typed)) :
    handleAutocomplete s =
      applyCompletion lead (toLowerCase typed)
        ((NAV_TARGETS ++ CD_ALIASES).filter (fun item => startsWith item (toLowerCase typed)))
        s := by
  simp only [handleAutocomplete, hright, hmatch, Bool.false_eq_true, if_false]

/-- With no whitespace right of the caret, the `cd` pattern failing and the
command pattern matching the text left of it, `handleAutocomplete` completes
among the commands. -/
theorem handleAutocomplete_command (s : Session) (lead typed : Str)
    (hright : (s.inputValue.drop s.selectionStart).any isWhitespace = false)
    (hcd : matchCd (s.inputValue.take s.selectionStart) = none)
    (hmatch : matchCommand (s.inputValue.take s.selectionStart) = some (lead, typed)) :
    handleAutocomplete s =
      applyCompletion lead (toLowerCase typed)
        (COMMANDS.filter (fun item => startsWith item (toLowerCase typed))) s := by
  simp only [handleAutocomplete, hright, hcd, hmatch, Bool.false_eq_true, if_false]

/-- With the caret at the end of the line, the text left of it is the line and
nothing is right of it. -/
theorem caret_at_end (s : Session) (hcaret : s.selectionStart = s.inputValue.length) :
    s.inputValue.take s.selectionStart = s.inputValue ∧
      (s.inputValue.drop s.selectionStart).any isWhitespace = false := by
  rw [hcaret, List.take_length, List.drop_length]
  exact ⟨rfl, rfl⟩

/-- C13: with the caret at the end of the line, when the partial token
(lower-cased) is a prefix of exactly one candidate - a command when the line is
a whitespace run and a partial token, a nav target or an alias when the line is
a whitespace run, `cd` in either case, a non-empty whitespace run and a partial
token - Tab replaces the input by the text before the partial token, the
candidate and one blank, and changes nothing else (no output); Tab on `h`
has the one candidate `help` and gives the input `help` followed by a blank;
when no candidate matches, Tab changes nothing. -/
theorem complete_single_candidate :
    (∀ (s : Session) (lead typed cand : Str),
      s.inputValue = lead ++ typed →
      s.selectionStart = s.inputValue.length →
      (∀ ch ∈ lead, isWhitespace ch = true) →
      (∀ ch ∈ typed, isWhitespace ch = false) →
      COMMANDS.filter (fun item => startsWith item (toLowerCase typed)) = [cand] →
      handleAutocomplete s =
        { s with inputValue := lead ++ cand ++ " ".toList
                 selectionStart := (lead ++ cand ++ " ".toList).length }) ∧
    (∀ (s : Session) (lead gap typed cand : Str) (c d : Char),
      s.inputValue = lead ++ [c, d] ++ gap ++ typed →
      s.selectionStart = s.inputValue.length →
      (∀ ch ∈ lead, isWhitespace ch = true) →
      (c = 'c' ∨ c = 'C') → (d = 'd' ∨ d = 'D') →
      (∀ ch ∈ gap, isWhitespace ch = true) → gap ≠ [] →
      (∀ ch ∈ typed, isWhitespace ch = false) →
      (NAV_TARGETS ++ CD_ALIASES).filter (fun item => startsWith item (toLowerCase typed)) =
        [cand] →
      handleAutocomplete s =
        { s with inputValue := lead ++ [c, d] ++ gap ++ cand ++ " ".toList
                 selectionStart := (lead ++ [c, d] ++ gap ++ cand ++ " ".toList).length }) ∧
    (COMMANDS.filter (fun item => startsWith item (toLowerCase "h".toList)) = ["help".toList] ∧
      ∀ s : Session, handleAutocomplete (typeLine "h".toList s) =
        { s with inputValue := "help ".toList, selectionStart := 5 }) ∧
    (∀ (s : Session) (lead typed : Str),
      s.inputValue = lead ++ typed →
      s.selectionStart = s.inputValue.length →
      (∀ ch ∈ lead, isWhitespace ch = true) →
      (∀ ch ∈ typed, isWhitespace ch = false) →
      COMMANDS.filter (fun item => startsWith item (toLowerCase typed)) = [] →
      handleAutocomplete s = s) ∧
    (∀ (s : Session) (lead gap typed : Str) (c d : Char),
      s.inputValue = lead ++ [c, d] ++ gap ++ typed →
      s.selectionStart = s.inputValue.length →
      (∀ ch ∈ lead, isWhitespace ch = true) →
      (c = 'c' ∨ c = 'C') → (d = 'd' ∨ d = 'D') →
      (∀ ch ∈ gap, isWhitespace ch = true) → gap ≠ [] →
      (∀ ch ∈ typed, isWhitespace ch = false) →
      (NAV_TARGETS ++ CD_ALIASES).filter (fun item => startsWith item (toLowerCase typed)) =
        [] →
      handleAutocomplete s = s) := by
  have hcommand : ∀ (s : Session) (lead typed : Str),
      s.inputValue = lead ++ typed →
      s.selectionStart = s.inputValue.length →
      (∀ ch ∈ lead, isWhitespace ch = true) →
      (∀ ch ∈ typed, isWhitespace ch = false) →
      handleAutocomplete s =
        applyCompletion lead (toLowerCase typed)
          (COMMANDS.filter (fun item => startsWith item (toLowerCase typed))) s := by
    intro s lead typed hval hcaret hlead hnone
    obtain ⟨hleft, hright⟩ := caret_at_end s hcaret
    exact handleAutocomplete_command s lead typed hright
      (by rw [hleft, hval]; exact matchCd_eq_none lead typed hlead hnone)
      (by rw [hleft, hval]; exact matchCommand_eq lead typed hlead hnone)
  have hcd : ∀ (s : Session) (lead gap typed : Str) (c d : Char),
      s.inputValue = lead ++ [c, d] ++ gap ++ typed →
      s.selectionStart = s.inputValue.length →
      (∀ ch ∈ lead, isWhitespace ch = true) →
      (c = 'c' ∨ c = 'C') → (d = 'd' ∨ d = 'D') →
      (∀ ch ∈ gap, isWhitespace ch = true) → gap ≠ [] →
      (∀ ch ∈ typed, isWhitespace ch = false) →
      handleAutocomplete s =
        applyCompletion (lead ++ [c, d] ++ gap) (toLowerCase typed)
          ((NAV_TARGETS ++ CD_ALIASES).filter
            (fun item => startsWith item (toLowerCase typed))) s := by
    intro s lead gap typed c d hval hcaret hlead hc hd hgap hgapne hnone
    obtain ⟨hleft, hright⟩ := caret_at_end s hcaret
    exact handleAutocomplete_cd s _ typed hright
      (by rw [hleft, hval]; exact matchCd_eq lead gap typed c d hlead hc hd hgap hgapne hnone)
  refine ⟨?_, ?_, ⟨by decide, ?_⟩, ?_, ?_⟩
  · intro s lead typed cand hval hcaret hlead hnone hone
    rw [hcommand s lead typed hval hcaret hlead hnone, hone]
    rfl
  · intro s lead gap typed cand c d hval hcaret hlead hc hd hgap hgapne hnone hone
    rw [hcd s lead gap typed c d hval hcaret hlead hc hd hgap hgapne hnone, hone]
    rfl
  · intro s
    rw [hcommand (typeLine "h".toList s) [] "h".toList rfl rfl
      (fun ch hch => absurd hch (List.not_mem_nil ch)) (by decide)]
    rfl
  · intro s lead typed hval hcaret hlead hnone hzero
    rw [hcommand s lead typed hval hcaret hlead hnone, hzero]
    rfl
  · intro s lead gap typed c d hval hcaret hlead hc hd hgap hgapne hnone hzero
    rw [hcd s lead gap typed c d hval hcaret hlead hc hd hgap hgapne hnone, hzero]
    rfl

theorem complete_single_candidate_witness :
    handleAutocomplete (typeLine " CD  pro".toList (initialSession "home".toList)) =
      typeLine " CD  projects ".toList (initialSession "home".toList) ∧
    handleAutocomplete (typeLine "  Wh".toList (initialSession "home".toList)) =
      typeLine "  whoami ".toList (initialSession "home".toList) := by
  constructor
  · rw [complete_single_candidate.2.1 (typeLine " CD  pro".toList (initialSession "home".toList))
      " ".toList "  ".toList "pro".toList "projects".toList 'C' 'D' (by decide) (by decide)
      (by decide) (by decide) (by decide) (by decide) (by decide) (by decide) (by decide)]
    decide
  · rw [complete_single_candidate.1 (typeLine "  Wh".toList (initialSession "home".toList))
      "  ".toList "Wh".toList "whoami".toList (by decide) (by decide)
      (by decide) (by decide) (by decide)]
    decide

/-- C15 fails as stated: with the caret inside the token `help`, after `he`,
a non-whitespace character follows the caret and Tab still replaces the input
(by `help` and a blank); and with the caret after `h` in the line `h` followed
by a blank, only whitespace follows the caret and Tab does nothing, although
the same caret after `h` alone completes. -/
theorem caret_guard_counterexample :
    ((∃ ch ∈ "help".toList.drop 2, isWhitespace ch = false) ∧
      (handleAutocomplete
        { initialSession "home".toList with
          inputValue := "help".toList, selectionStart := 2 }).inputValue = "help ".toList ∧
      (handleAutocomplete
        { initialSession "home".toList with
          inputValue := "help".toList, selectionStart := 2 }).inputValue ≠ "help".toList) ∧
    ((∀ ch ∈ "h ".toList.drop 1, isWhitespace ch = true) ∧
      handleAutocomplete
        { initialSession "home".toList with inputValue := "h ".toList, selectionStart := 1 } =
        { initialSession "home".toList with inputValue := "h ".toList, selectionStart := 1 } ∧
      (handleAutocomplete
        { initialSession "home".toList with
          inputValue := "h".toList, selectionStart := 1 }).inputValue = "help ".toList) := by
  refine ⟨⟨⟨'l', by decide, by decide⟩, by decide, by decide⟩, by decide, by decide, by decide⟩

/-- C15, amended: Tab does nothing when some whitespace character occurs right
of the caret; when none does, completion is attempted on the text left of the
caret, in the `cd` argument context when the `cd` pattern matches that text and
otherwise in the command context when the command pattern matches it, whatever
non-whitespace text follows the caret. -/
theorem caret_guard :
    (∀ s : Session,
      (∃ ch ∈ s.inputValue.drop s.selectionStart, isWhitespace ch = true) →
      handleAutocomplete s = s) ∧
    (∀ (s : Session) (lead typed : Str),
      (∀ ch ∈ s.inputValue.drop s.selectionStart, isWhitespace ch = false) →
      matchCd (s.inputValue.take s.selectionStart) = some (lead, typed) →
      handleAutocomplete s =
        applyCompletion lead (toLowerCase typed)
          ((NAV_TARGETS ++ CD_ALIASES).filter
            (fun item => startsWith item (toLowerCase typed))) s) ∧
    (∀ (s : Session) (lead typed : Str),
      (∀ ch ∈ s.inputValue.drop s.selectionStart, isWhitespace ch = false) →
      matchCd (s.inputValue.take s.selectionStart) = none →
      matchCommand (s.inputValue.take s.selectionStart) = some (lead, typed) →
      handleAutocomplete s =
        applyCompletion lead (toLowerCase typed)
          (COMMANDS.filter (fun item => startsWith item (toLowerCase typed))) s) := by
  have hright : ∀ s : Session,
      (∀ ch ∈ s.inputValue.drop s.selectionStart, isWhitespace ch = false) →
      (s.inputValue.drop s.selectionStart).any isWhitespace = false := by
    intro s hall
    rw [List.any_eq_false]
    intro ch hch
    simp [hall ch hch]
  refine ⟨?_, ?_, ?_⟩
  · intro s hws
    obtain ⟨ch, hmem, hch⟩ := hws
    have hany : (s.inputValue.drop s.selectionStart).any isWhitespace = true :=
      List.any_eq_true.mpr ⟨ch, hmem, hch⟩
    simp only [handleAutocomplete, hany, if_true]
  · intro s lead typed hall hmatch
    exact handleAutocomplete_cd s lead typed (hright s hall) hmatch
  · intro s lead typed hall hcd hmatch
    exact handleAutocomplete_command s lead typed (hright s hall) hcd hmatch

theorem caret_guard_witness :
    handleAutocomplete
        { initialSession "home".toList with
          inputValue := "cd ab home".toList, selectionStart := 5 } =
      { initialSession "home".toList with
        inputValue := "cd ab home".toList, selectionStart := 5 } ∧
    handleAutocomplete
        { initialSession "home".toList with
          inputValue := "cd abxyz".toList, selectionStart := 5 } =
      { initialSession "home".toList with
        inputValue := "cd about ".toList, selectionStart := 9 } := by
  constructor
  · exact caret_guard.1 _ ⟨' ', by decide, by decide⟩
  · rw [caret_guard.2.1 { initialSession "home".toList with
          inputValue := "cd abxyz".toList, selectionStart := 5 } "cd ".toList "ab".toList
      (by decide) (by decide)]
    decide

/-- The last segment of a pathname that ends in `/` is empty. -/
theorem lastSegment_trailing_slash (directory : Str) :
    lastSegment (directory ++ "/".toList) = [] := by
  simp [lastSegment, List.takeWhile]

/-- The last segment of `directory/segment`, when `segment` has no `/`. -/
theorem lastSegment_append (directory segment : Str)
    (hseg : ∀ ch ∈ segment, ch ≠ '/') :
    lastSegment (directory ++ "/".toList ++ segment) = segment := by
  have hall : ∀ ch ∈ segment.reverse, (fun c : Char => c != '/') ch = true := by
    intro ch hch
    simpa using hseg ch (List.mem_reverse.mp hch)
  unfold lastSegment
  rw [List.reverse_append, List.takeWhile_append_of_pos hall]
  simp [List.takeWhile]

/-- `getCurrentPage` reads the pathname through its last segment only. -/
theorem getCurrentPage_congr (p q : Str) (h : lastSegment p = lastSegment q) :
    getCurrentPage p = getCurrentPage q := by
  simp only [getCurrentPage, cleanFile, h]

/-- What `removeFirst` returns: the text itself, or the text without one
occurrence of the pattern. -/
theorem removeFirst_cases (pattern s : Str) :
    removeFirst pattern s = s ∨
      ∃ pre post, s = pre ++ pattern ++ post ∧ removeFirst pattern s = pre ++ post := by
  induction s with
  | nil => exact Or.inl rfl
  | cons c cs ih =>
    by_cases hp : pattern.isPrefixOf (c :: cs) = true
    · obtain ⟨rest, hrest⟩ := List.isPrefixOf_iff_prefix.mp hp
      refine Or.inr ⟨[], rest, by simpa using hrest.symm, ?_⟩
      simp only [removeFirst, hp, if_true, List.nil_append]
      rw [← hrest, List.drop_left]
    · have hred : removeFirst pattern (c :: cs) = c :: removeFirst pattern cs := by
        simp only [removeFirst, hp, Bool.false_eq_true, if_false]
      rcases ih with h | ⟨pre, post, h1, h2⟩
      · exact Or.inl (by rw [hred, h])
      · exact Or.inr ⟨c :: pre, post, by rw [h1]; rfl, by rw [hred, h2]; rfl⟩

/-- C16: `getCurrentPage` returns a nav target for every pathname; it returns
`home` whenever the cleaned file name (last segment, or `index.html` when that
is empty, cut at `?` and `#`, lower-cased), once its first `.html` is removed,
is none of `about`, `projects`, `certs`, `contact`; in particular for the empty
pathname and for every pathname that ends in `/`; and a result other than
`home` is the cleaned file name itself or that name without one `.html`. -/
theorem getCurrentPage_mem :
    (∀ pathname : Str, getCurrentPage pathname ∈ NAV_TARGETS) ∧
    (∀ pathname : Str,
      removeFirst ".html".toList (cleanFile pathname) ∉
        ["about".toList, "projects".toList, "certs".toList, "contact".toList] →
      getCurrentPage pathname = "home".toList) ∧
    getCurrentPage [] = "home".toList ∧
    (∀ directory : Str, getCurrentPage (directory ++ "/".toList) = "home".toList) ∧
    (∀ pathname : Str, getCurrentPage pathname ≠ "home".toList →
      cleanFile pathname = getCurrentPage pathname ∨
      ∃ pre post, cleanFile pathname = pre ++ ".html".toList ++ post ∧
        getCurrentPage pathname = pre ++ post) := by
  refine ⟨?_, ?_, by decide, ?_, ?_⟩
  · intro pathname
    simp only [getCurrentPage]
    split_ifs with h1 h2
    · decide
    · exact h2
    · decide
  · intro pathname hnot
    simp only [getCurrentPage]
    split_ifs with h1 h2
    · rfl
    · simp only [NAV_TARGETS, List.mem_cons, List.mem_singleton, List.not_mem_nil,
        or_false] at h2 hnot
      rcases h2 with h | h
      · exact h
      · exact absurd h hnot
    · rfl
  · intro directory
    have hcongr := getCurrentPage_congr (directory ++ "/".toList) []
      (by rw [lastSegment_trailing_slash]; rfl)
    rw [hcongr]
    decide
  · intro pathname hne
    have hval : getCurrentPage pathname = removeFirst ".html".toList (cleanFile pathname) := by
      simp only [getCurrentPage] at hne ⊢
      split_ifs at hne ⊢ with h1 h2
      · exact absurd rfl hne
      · rfl
      · exact absurd rfl hne
    rw [hval]
    rcases removeFirst_cases ".html".toList (cleanFile pathname) with h | ⟨pre, post, h1, h2⟩
    · exact Or.inl h.symm
    · exact Or.inr ⟨pre, post, h1, h2⟩

theorem getCurrentPage_mem_witness :
    getCurrentPage "/site/blog.html?x=1".toList = "home".toList ∧
    getCurrentPage "/site/Certs.HTML#top".toList = "certs".toList :=
  ⟨getCurrentPage_mem.2.1 "/site/blog.html?x=1".toList (by decide), by decide⟩

/-- The page `PAGE_MAP` gives for a key is the file of a nav target. -/
theorem PAGE_MAP_eq_some (t page : Str) (h : PAGE_MAP t = some page) :
    (t = "home".toList ∧ page = "index.html".toList) ∨
    (t = "about".toList ∧ page = "about.html".toList) ∨
    (t = "projects".toList ∧ page = "projects.html".toList) ∨
    (t = "certs".toList ∧ page = "certs.html".toList) ∨
    (t = "contact".toList ∧ page = "contact.html".toList) := by
  unfold PAGE_MAP at h
  split_ifs at h with h1 h2 h3 h4 h5
  · exact Or.inl ⟨h1, (Option.some.inj h).symm⟩
  · exact Or.inr (Or.inl ⟨h2, (Option.some.inj h).symm⟩)
  · exact Or.inr (Or.inr (Or.inl ⟨h3, (Option.some.inj h).symm⟩))
  · exact Or.inr (Or.inr (Or.inr (Or.inl ⟨h4, (Option.some.inj h).symm⟩)))
  · exact Or.inr (Or.inr (Or.inr (Or.inr ⟨h5, (Option.some.inj h).symm⟩)))

/-- `cd t` on the page `t`, for a nav target `t`: one line `Already at /t`. -/
theorem submit_cd_same_page (now t : Str) (ht : t ∈ NAV_TARGETS) :
    submit now ("cd ".toList ++ t) (initialSession t) =
      { initialSession t with
        history := ["cd ".toList ++ t]
        historyContainer :=
          [OutputNode.echo ("cd ".toList ++ t),
           OutputNode.output ["Already at /".toList ++ t] false] } := by
  simp only [NAV_TARGETS, List.mem_cons, List.mem_singleton, List.not_mem_nil, or_false] at ht
  have key : ∀ line target : Str, line = "cd ".toList ++ target →
      trim line = line → jsLength line ≤ MAX_COMMAND_LENGTH →
      (∀ ch ∈ line, isPrintableAscii ch = true) →
      tokenize line = ["cd".toList, target] → normalizeTarget target = target →
      target ∈ NAV_TARGETS →
      submit now line (initialSession target) =
        { initialSession target with
          history := [line]
          historyContainer :=
            [OutputNode.echo line, OutputNode.output ["Already at /".toList ++ target] false] } := by
    intro line target _ htrim hlen hascii htok hnorm hmem
    have hne : trim line ≠ [] := by
      rw [htrim]
      rintro rfl
      simp [tokenize_nil] at htok
    rw [submit_eq_dispatch now line _ hne (by rw [htrim]; exact hlen)
      (by rw [htrim]; exact hascii), htrim, htok, dispatch_cd now _ _ _ (by decide)]
    simp only [List.head?_cons, Option.getD_some]
    rw [handleCd_navTarget target target _ hnorm hmem]
    simp [recorded, appendOutput, initialSession, recordHistory]
  rcases ht with h | h | h | h | h <;> subst h <;>
    exact key _ _ rfl (by decide) (by decide) (by decide) (by decide) (by decide) (by decide)

/-- C19: for every nav target `t` and every directory, `getCurrentPage` on the
pathname made of the directory, `/` and `PAGE_MAP[t]` returns `t`; so a session
started on the page `cd t` navigates to has `currentPage = t`, and `cd t`
submitted there prints `Already at /t` and schedules no navigation. -/
theorem page_round_trip (t page directory : Str) (hpage : PAGE_MAP t = some page) :
    getCurrentPage (directory ++ "/".toList ++ page) = t ∧
    (initialSession (getCurrentPage (directory ++ "/".toList ++ page))).currentPage = t ∧
    ∀ now : Str,
      submit now ("cd ".toList ++ t)
          (initialSession (getCurrentPage (directory ++ "/".toList ++ page))) =
        { initialSession t with
          history := ["cd ".toList ++ t]
          historyContainer :=
            [OutputNode.echo ("cd ".toList ++ t),
             OutputNode.output ["Already at /".toList ++ t] false] } := by
  have hget : getCurrentPage (directory ++ "/".toList ++ page) = t := by
    have hcases := PAGE_MAP_eq_some t page hpage
    have key : ∀ segment target : Str, (∀ ch ∈ segment, ch ≠ '/') →
        getCurrentPage ("/".toList ++ segment) = target →
        getCurrentPage (directory ++ "/".toList ++ segment) = target := by
      intro segment target hseg hval
      rw [← hval]
      apply getCurrentPage_congr
      rw [lastSegment_append directory segment hseg]
      have := lastSegment_append [] segment hseg
      simpa using this.symm
    rcases hcases with ⟨rfl, rfl⟩ | ⟨rfl, rfl⟩ | ⟨rfl, rfl⟩ | ⟨rfl, rfl⟩ | ⟨rfl, rfl⟩ <;>
      exact key _ _ (by decide) (by decide)
  have hmem : t ∈ NAV_TARGETS := by
    rcases PAGE_MAP_eq_some t page hpage with
      ⟨rfl, _⟩ | ⟨rfl, _⟩ | ⟨rfl, _⟩ | ⟨rfl, _⟩ | ⟨rfl, _⟩ <;> decide
  refine ⟨hget, by rw [hget]; rfl, fun now => ?_⟩
  rw [hget]
  exact submit_cd_same_page now t hmem

theorem page_round_trip_witness :
    PAGE_MAP "projects".toList = some "projects.html".toList ∧
    getCurrentPage ("/DhiyanK".toList ++ "/".toList ++ "projects.html".toList) =
      "projects".toList :=
  ⟨by decide, (page_round_trip "projects".toList "projects.html".toList "/DhiyanK".toList
    (by decide)).1⟩

/-- A run of characters kept by `dropWhile` when its first one fails the test. -/
theorem dropWhile_of_head (p : Char → Bool) (y : Char) (t rest : Str) (hy : p y = false) :
    (y :: t ++ rest).dropWhile p = y :: t ++ rest := by
  simp [List.dropWhile, hy]

/-- Trimming removes a leading and a trailing whitespace run around a text that
starts and ends with a character that is no whitespace. -/
theorem trim_core (lead core trail : Str) (x y : Char) (mid back : Str)
    (hlead : ∀ ch ∈ lead, isWhitespace ch = true)
    (htrail : ∀ ch ∈ trail, isWhitespace ch = true)
    (hhead : core = x :: mid) (hx : isWhitespace x = false)
    (hlast : core.reverse = y :: back) (hy : isWhitespace y = false) :
    trim (lead ++ core ++ trail) = core := by
  have htrail' : ∀ ch ∈ trail.reverse, isWhitespace ch = true := fun ch hch =>
    htrail ch (List.mem_reverse.mp hch)
  unfold trim
  rw [List.append_assoc, List.dropWhile_append_of_pos hlead, hhead,
    dropWhile_of_head isWhitespace x mid trail hx, ← hhead, List.reverse_append,
    List.dropWhile_append_of_pos htrail', hlast]
  have h := dropWhile_of_head isWhitespace y back [] hy
  rw [List.append_nil] at h
  rw [h, ← hlast, List.reverse_reverse]

/-- Splitting a text without whitespace gives the piece being read followed by
that text. -/
theorem splitWhitespaceAux_word (text cur : Str) (inRun : Bool)
    (hnone : ∀ ch ∈ text, isWhitespace ch = false) :
    splitWhitespaceAux text cur inRun = [cur.reverse ++ text] := by
  induction text generalizing cur inRun with
  | nil => simp [splitWhitespaceAux]
  | cons c cs ih =>
    have hc : isWhitespace c = false := hnone c (List.mem_cons_self _ _)
    simp only [splitWhitespaceAux, hc, Bool.false_eq_true, if_false]
    rw [ih (c :: cur) false (fun ch hch => hnone ch (List.mem_cons_of_mem _ hch))]
    simp

/-- Inside a whitespace run, the rest of the run is skipped. -/
theorem splitWhitespaceAux_run (gap rest : Str)
    (hgap : ∀ ch ∈ gap, isWhitespace ch = true) :
    splitWhitespaceAux (gap ++ rest) [] true = splitWhitespaceAux rest [] true := by
  induction gap with
  | nil => rfl
  | cons g gs ih =>
    have hg : isWhitespace g = true := hgap g (List.mem_cons_self _ _)
    simp only [List.cons_append, splitWhitespaceAux, hg, if_true]
    exact ih (fun ch hch => hgap ch (List.mem_cons_of_mem _ hch))

/-- The tokens of a non-empty text without whitespace: the text itself. -/
theorem tokenize_word (word : Str) (hne : word ≠ [])
    (hnone : ∀ ch ∈ word, isWhitespace ch = false) :
    tokenize word = [word] := by
  unfold tokenize splitWhitespace
  rw [splitWhitespaceAux_word word [] false hnone]
  cases word with
  | nil => exact absurd rfl hne
  | cons c cs => simp

/-- The tokens of `cd`, a non-empty whitespace run and a word. -/
theorem tokenize_cd_word (c d : Char) (gap word : Str)
    (hc : isWhitespace c = false) (hd : isWhitespace d = false)
    (hgap : ∀ ch ∈ gap, isWhitespace ch = true) (hgapne : gap ≠ [])
    (hne : word ≠ []) (hnone : ∀ ch ∈ word, isWhitespace ch = false) :
    tokenize (c :: d :: (gap ++ word)) = [[c, d], word] := by
  cases gap with
  | nil => exact absurd rfl hgapne
  | cons g gs =>
    have hg : isWhitespace g = true := hgap g (List.mem_cons_self _ _)
    unfold tokenize splitWhitespace
    simp only [List.cons_append, splitWhitespaceAux, hc, hd, hg, Bool.false_eq_true,
      if_false, if_true, List.append_eq]
    rw [splitWhitespaceAux_run gs word (fun ch hch => hgap ch (List.mem_cons_of_mem _ hch)),
      splitWhitespaceAux_word word [] true hnone]
    cases word with
    | nil => exact absurd rfl hne
    | cons w ws => simp

/-- What a match of the command pattern tells: the text is the two groups, and
the first group is whitespace. -/
theorem matchCommand_some (left lead typed : Str)
    (hmatch : matchCommand left = some (lead, typed)) :
    left = lead ++ typed ∧ ∀ ch ∈ lead, isWhitespace ch = true := by
  unfold matchCommand at hmatch
  simp only at hmatch
  split_ifs at hmatch
  have hpair := Option.some.inj hmatch
  have h1 : left.takeWhile isWhitespace = lead := congrArg Prod.fst hpair
  have h2 : left.dropWhile isWhitespace = typed := congrArg Prod.snd hpair
  refine ⟨?_, ?_⟩
  · rw [← h1, ← h2, List.takeWhile_append_dropWhile]
  · intro ch hch
    rw [← h1] at hch
    exact List.mem_takeWhile_imp hch

/-- What a match of the `cd` pattern tells: the text is the two groups, and the
first group is a whitespace run, `cd` in either case and a non-empty whitespace
run. -/
theorem matchCd_some (left lead typed : Str)
    (hmatch : matchCd left = some (lead, typed)) :
    left = lead ++ typed ∧
    ∃ (space gap : Str) (c d : Char),
      lead = space ++ [c, d] ++ gap ∧ (∀ ch ∈ space, isWhitespace ch = true) ∧
      (c = 'c' ∨ c = 'C') ∧ (d = 'd' ∨ d = 'D') ∧
      (∀ ch ∈ gap, isWhitespace ch = true) ∧ gap ≠ [] := by
  unfold matchCd at hmatch
  simp only at hmatch
  split at hmatch
  · rename_i c d rest hdrop
    split_ifs at hmatch with hcd hgap
    have hpair := Option.some.inj hmatch
    have h1 : left.takeWhile isWhitespace ++ [c, d] ++ rest.takeWhile isWhitespace = lead :=
      congrArg Prod.fst hpair
    have h2 : rest.dropWhile isWhitespace = typed := congrArg Prod.snd hpair
    refine ⟨?_, left.takeWhile isWhitespace, rest.takeWhile isWhitespace, c, d, h1.symm,
      fun ch hch => List.mem_takeWhile_imp hch, hcd.1, hcd.2,
      fun ch hch => List.mem_takeWhile_imp hch, hgap.1⟩
    have hleft : left = left.takeWhile isWhitespace ++ left.dropWhile isWhitespace :=
      (List.takeWhile_append_dropWhile isWhitespace left).symm
    have hrest : rest = rest.takeWhile isWhitespace ++ rest.dropWhile isWhitespace :=
      (List.takeWhile_append_dropWhile isWhitespace rest).symm
    rw [← h1, ← h2]
    conv_lhs => rw [hleft, hdrop, hrest]
    simp
  · exact Option.noConfusion hmatch

/-- Trimming removes a leading and a trailing whitespace run around a non-empty
text whose first and last characters are no whitespace. -/
theorem trim_padded (lead core trail : Str)
    (hlead : ∀ ch ∈ lead, isWhitespace ch = true)
    (htrail : ∀ ch ∈ trail, isWhitespace ch = true)
    (hne : core ≠ [])
    (hfirst : ∀ x mid, core = x :: mid → isWhitespace x = false)
    (hlast : ∀ y back, core.reverse = y :: back → isWhitespace y = false) :
    trim (lead ++ core ++ trail) = core := by
  cases hc : core with
  | nil => exact absurd hc hne
  | cons x mid =>
    cases hr : core.reverse with
    | nil => exact absurd (List.reverse_eq_nil_iff.mp hr) hne
    | cons y back =>
      rw [← hc]
      exact trim_core lead core trail x y mid back hlead htrail hc (hfirst x mid hc) hr
        (hlast y back hr)

/-- What the built-in candidates are made of: non-empty, lower-case printable
ASCII without whitespace. -/
theorem candidate_shape (cand : Str) (hmem : cand ∈ COMMANDS ++ (NAV_TARGETS ++ CD_ALIASES)) :
    cand ≠ [] ∧ (∀ ch ∈ cand, isWhitespace ch = false) ∧
      (∀ ch ∈ cand, isPrintableAscii ch = true) ∧ toLowerCase cand = cand ∧
      jsLength cand ≤ MAX_COMMAND_LENGTH := by
  have hall : ∀ x ∈ COMMANDS ++ (NAV_TARGETS ++ CD_ALIASES),
      x ≠ [] ∧ (∀ ch ∈ x, isWhitespace ch = false) ∧
      (∀ ch ∈ x, isPrintableAscii ch = true) ∧ toLowerCase x = x ∧
      jsLength x ≤ MAX_COMMAND_LENGTH := by decide
  exact hall cand hmem

/-- A new error node is an error node of the session before. -/
theorem error_of_appendOutput_false (lines out : List Str) (s : Session)
    (h : OutputNode.output out true ∈ (appendOutput lines false s).historyContainer) :
    OutputNode.output out true ∈ s.historyContainer := by
  simp only [appendOutput, List.mem_append, List.mem_singleton] at h
  rcases h with h | h
  · exact h
  · injection h with _ hflag
    exact Bool.noConfusion hflag

/-- For an argument that is a nav target or an alias, `handleCd` appends one
non-error line that starts with `Already at /` or `Navigating to /`. -/
theorem handleCd_candidate (cand : Str) (s : Session) (hmem : cand ∈ NAV_TARGETS ++ CD_ALIASES) :
    ∃ line, (handleCd cand s).historyContainer =
        s.historyContainer ++ [OutputNode.output [line] false] ∧
      ("Already at /".toList <+: line ∨ "Navigating to /".toList <+: line) := by
  have hall : ∀ x ∈ NAV_TARGETS ++ CD_ALIASES,
      (normalizeTarget x = x ∧ x ∈ NAV_TARGETS) ∨
      (normalizeTarget x = [] ∨ normalizeTarget x ∈ CD_ALIASES) := by decide
  rcases hall cand hmem with ⟨hnorm, ht⟩ | hgo
  · rw [handleCd_navTarget cand cand s hnorm ht]
    split_ifs
    · exact ⟨_, rfl, Or.inl (List.prefix_append _ _)⟩
    · refine ⟨_, rfl, Or.inr ?_⟩
      rw [List.append_assoc]
      exact List.prefix_append _ _
  · rw [handleCd_goHome cand s hgo]
    split_ifs
    · exact ⟨_, rfl, Or.inl ⟨"home".toList, by decide⟩⟩
    · exact ⟨_, rfl, Or.inr ⟨"home...".toList, by decide⟩⟩

/-- For a known command without argument, the `switch` adds no error node. -/
theorem dispatch_known (now cand : Str) (s : Session) (hmem : cand ∈ COMMANDS)
    (out : List Str)
    (h : OutputNode.output out true ∈ (dispatch now [cand] s).historyContainer) :
    OutputNode.output out true ∈ s.historyContainer := by
  simp only [COMMANDS, List.mem_cons, List.mem_singleton, List.not_mem_nil, or_false] at hmem
  rcases hmem with rfl | rfl | rfl | rfl | rfl | rfl
  · have hd : dispatch now ["help".toList] s = appendOutput helpLines false s := by
      simp [dispatch, toLowerCase, lowerChar]
    rw [hd] at h
    exact error_of_appendOutput_false _ _ _ h
  · have hd : dispatch now ["ls".toList] s = appendOutput lsLines false s := by
      simp [dispatch, toLowerCase, lowerChar]
    rw [hd] at h
    exact error_of_appendOutput_false _ _ _ h
  · have hd : dispatch now ["cd".toList] s = handleCd [] s :=
      dispatch_cd now "cd".toList [] s (by decide)
    rw [hd] at h
    obtain ⟨line, hline, _⟩ := handleCd_candidate "~".toList s (by decide)
    have hsame : handleCd [] s = handleCd "~".toList s := by
      rw [handleCd_goHome [] s (Or.inl (by decide)),
        handleCd_goHome "~".toList s (Or.inr (by decide))]
    rw [hsame, hline] at h
    simp only [List.mem_append, List.mem_singleton] at h
    rcases h with h | h
    · exact h
    · injection h with _ hflag
      exact Bool.noConfusion hflag
  · have hd : dispatch now ["whoami".toList] s =
        appendOutput ["root (Administrator Access)".toList] false s := by
      simp [dispatch, toLowerCase, lowerChar]
    rw [hd] at h
    exact error_of_appendOutput_false _ _ _ h
  · have hd : dispatch now ["date".toList] s = appendOutput [now] false s := by
      simp [dispatch, toLowerCase, lowerChar]
    rw [hd] at h
    exact error_of_appendOutput_false _ _ _ h
  · have hd : dispatch now ["clear".toList] s = { s with historyContainer := [] } :=
      dispatch_clear now _ s (by decide)
    rw [hd] at h
    exact absurd h (List.not_mem_nil _)

/-- A single candidate is written after the lead, followed by a blank, as if
the user had typed that line. -/
theorem applyCompletion_single (lead typed cand : Str) (s : Session) :
    applyCompletion lead typed [cand] s = typeLine (lead ++ cand ++ " ".toList) s := rfl

/-- The only element of a filtered list belongs to the list. -/
theorem mem_of_filter_eq_singleton {registry : List Str} {p : Str → Bool} {cand : Str}
    (h : registry.filter p = [cand]) : cand ∈ registry := by
  have hmem : cand ∈ registry.filter p := by
    rw [h]
    exact List.mem_singleton_self cand
  exact (List.mem_filter.mp hmem).1

/-- C20: a line completed by Tab with a single candidate is accepted when
submitted. In the command context the completed line is the lead, the command
and a blank, its first token is that known command and the submission adds no
error node. In the `cd` argument context, for a line of printable ASCII whose
completed text is at most 200 long after trimming, the tokens are `cd` (in
either case) and the candidate, and the submission appends the echo and one
non-error line that starts with `Already at /` or `Navigating to /`. -/
theorem completion_accepted :
    (∀ (now : Str) (s : Session) (lead typed cand : Str),
      (∀ ch ∈ s.inputValue.drop s.selectionStart, isWhitespace ch = false) →
      matchCd (s.inputValue.take s.selectionStart) = none →
      matchCommand (s.inputValue.take s.selectionStart) = some (lead, typed) →
      COMMANDS.filter (fun item => startsWith item (toLowerCase typed)) = [cand] →
      (handleAutocomplete s).inputValue = lead ++ cand ++ " ".toList ∧
      tokenize (trim (handleAutocomplete s).inputValue) = [cand] ∧
      toLowerCase cand ∈ COMMANDS ∧
      ∀ out : List Str,
        OutputNode.output out true ∈
          (handleEnter now (handleAutocomplete s)).historyContainer →
        OutputNode.output out true ∈ s.historyContainer) ∧
    (∀ (now : Str) (s : Session) (lead typed cand : Str),
      (∀ ch ∈ s.inputValue, isPrintableAscii ch = true) →
      (∀ ch ∈ s.inputValue.drop s.selectionStart, isWhitespace ch = false) →
      matchCd (s.inputValue.take s.selectionStart) = some (lead, typed) →
      (NAV_TARGETS ++ CD_ALIASES).filter (fun item => startsWith item (toLowerCase typed)) =
        [cand] →
      jsLength (trim (lead ++ cand ++ " ".toList)) ≤ MAX_COMMAND_LENGTH →
      (handleAutocomplete s).inputValue = lead ++ cand ++ " ".toList ∧
      (∃ first, tokenize (trim (handleAutocomplete s).inputValue) = [first, cand] ∧
        toLowerCase first = "cd".toList) ∧
      ∃ line,
        (handleEnter now (handleAutocomplete s)).historyContainer =
          s.historyContainer ++
            [OutputNode.echo (trim (lead ++ cand ++ " ".toList)),
             OutputNode.output [line] false] ∧
        ("Already at /".toList <+: line ∨ "Navigating to /".toList <+: line)) := by
  have hright : ∀ s : Session,
      (∀ ch ∈ s.inputValue.drop s.selectionStart, isWhitespace ch = false) →
      (s.inputValue.drop s.selectionStart).any isWhitespace = false := by
    intro s hall
    rw [List.any_eq_false]
    intro ch hch
    simp [hall ch hch]
  have hblank : ∀ ch ∈ " ".toList, isWhitespace ch = true := by decide
  constructor
  · intro now s lead typed cand hnows hcd hmatch hone
    have hmem : cand ∈ COMMANDS := mem_of_filter_eq_singleton hone
    obtain ⟨hne, hnone, hascii, hlower, hlen⟩ :=
      candidate_shape cand (List.mem_append_left _ hmem)
    obtain ⟨_, hlead⟩ := matchCommand_some _ lead typed hmatch
    have hcomplete : handleAutocomplete s = typeLine (lead ++ cand ++ " ".toList) s := by
      rw [handleAutocomplete_command s lead typed (hright s hnows) hcd hmatch, hone]
      rfl
    have htrim : trim (lead ++ cand ++ " ".toList) = cand :=
      trim_padded lead cand " ".toList hlead hblank hne
        (fun x mid hx => hnone x (by rw [hx]; exact List.mem_cons_self _ _))
        (fun y back hy => hnone y (List.mem_reverse.mp (by rw [hy]; exact List.mem_cons_self _ _)))
    have hinput : (handleAutocomplete s).inputValue = lead ++ cand ++ " ".toList := by
      rw [hcomplete]
      rfl
    refine ⟨hinput, ?_, ?_, ?_⟩
    · rw [hinput, htrim]
      exact tokenize_word cand hne hnone
    · rw [hlower]
      exact hmem
    · intro out hout
      have hsub : handleEnter now (handleAutocomplete s) =
          submit now (lead ++ cand ++ " ".toList) s := by
        rw [hcomplete]
        rfl
      rw [hsub, submit_eq_dispatch now _ s (by rw [htrim]; exact hne)
        (by rw [htrim]; exact hlen) (by rw [htrim]; exact hascii), htrim,
        tokenize_word cand hne hnone] at hout
      have hprev := dispatch_known now cand _ hmem out hout
      simp only [recorded, List.mem_append, List.mem_singleton] at hprev
      rcases hprev with h | h
      · exact h
      · exact OutputNode.noConfusion h
  · intro now s lead typed cand hprint hnows hmatch hone hlen
    have hmem : cand ∈ NAV_TARGETS ++ CD_ALIASES := mem_of_filter_eq_singleton hone
    obtain ⟨hne, hnone, hascii, _, _⟩ :=
      candidate_shape cand (List.mem_append_right _ hmem)
    obtain ⟨hleft, space, gap, c, d, hshape, hspace, hc, hd, hgap, hgapne⟩ :=
      matchCd_some _ lead typed hmatch
    have hcws : isWhitespace c = false := by rcases hc with rfl | rfl <;> decide
    have hdws : isWhitespace d = false := by rcases hd with rfl | rfl <;> decide
    have hcomplete : handleAutocomplete s = typeLine (lead ++ cand ++ " ".toList) s := by
      rw [handleAutocomplete_cd s lead typed (hright s hnows) hmatch, hone]
      rfl
    have hinput : (handleAutocomplete s).inputValue = lead ++ cand ++ " ".toList := by
      rw [hcomplete]
      rfl
    have hline : lead ++ cand ++ " ".toList =
        space ++ (c :: d :: (gap ++ cand)) ++ " ".toList := by
      rw [hshape]
      simp
    have htrim : trim (lead ++ cand ++ " ".toList) = c :: d :: (gap ++ cand) := by
      rw [hline]
      refine trim_padded space (c :: d :: (gap ++ cand)) " ".toList hspace hblank
        (List.cons_ne_nil _ _) ?_ ?_
      · intro x mid hx
        injection hx with hx _
        rw [← hx]
        exact hcws
      · intro y back hy
        have hrev : (c :: d :: (gap ++ cand)).reverse =
            cand.reverse ++ (gap.reverse ++ [d, c]) := by simp
        rw [hrev] at hy
        cases hcr : cand.reverse with
        | nil => exact absurd (List.reverse_eq_nil_iff.mp hcr) hne
        | cons z zs =>
          rw [hcr] at hy
          injection hy with hy _
          rw [← hy]
          exact hnone z (List.mem_reverse.mp (by rw [hcr]; exact List.mem_cons_self _ _))
    have htok : tokenize (c :: d :: (gap ++ cand)) = [[c, d], cand] :=
      tokenize_cd_word c d gap cand hcws hdws hgap hgapne hne hnone
    have hcd : toLowerCase [c, d] = "cd".toList := by
      rcases hc with rfl | rfl <;> rcases hd with rfl | rfl <;> decide
    refine ⟨hinput, ⟨[c, d], by rw [hinput, htrim]; exact htok, hcd⟩, ?_⟩
    have hsub : handleEnter now (handleAutocomplete s) =
        submit now (lead ++ cand ++ " ".toList) s := by
      rw [hcomplete]
      rfl
    have hleadmem : ∀ ch ∈ lead, isPrintableAscii ch = true := by
      intro ch hch
      apply hprint ch
      have : ch ∈ s.inputValue.take s.selectionStart := by
        rw [hleft]
        exact List.mem_append_left _ hch
      exact List.mem_of_mem_take this
    have hvalid : ∀ ch ∈ c :: d :: (gap ++ cand), isPrintableAscii ch = true := by
      intro ch hch
      simp only [List.mem_cons, List.mem_append] at hch
      rcases hch with rfl | rfl | hg | hcand
      · rcases hc with rfl | rfl <;> decide
      · rcases hd with rfl | rfl <;> decide
      · apply hleadmem
        rw [hshape]
        exact List.mem_append_right _ hg
      · exact hascii ch hcand
    obtain ⟨line, hout, hstart⟩ := handleCd_candidate cand
      (recorded (trim (lead ++ cand ++ " ".toList)) s) hmem
    refine ⟨line, ?_, hstart⟩
    rw [hsub, submit_eq_dispatch now _ s (by rw [htrim]; exact List.cons_ne_nil _ _) hlen
      (by rw [htrim]; exact hvalid)]
    have hdisp : dispatch now (tokenize (trim (lead ++ cand ++ " ".toList)))
        (recorded (trim (lead ++ cand ++ " ".toList)) s) =
        handleCd cand (recorded (trim (lead ++ cand ++ " ".toList)) s) := by
      rw [htrim, htok, dispatch_cd now [c, d] [cand] _ hcd]
      rfl
    rw [hdisp, hout]
    simp [recorded]

theorem completion_accepted_witness :
    (handleAutocomplete (typeLine " cD  Abo".toList (initialSession "home".toList))).inputValue =
      " cD  about ".toList ∧
    (handleEnter [] (handleAutocomplete
      (typeLine " cD  Abo".toList (initialSession "home".toList)))).historyContainer =
      [OutputNode.echo "cD  about".toList,
       OutputNode.output ["Navigating to /about...".toList] false] ∧
    (handleAutocomplete (typeLine "wh".toList (initialSession "home".toList))).inputValue =
      "whoami ".toList := by
  refine ⟨(completion_accepted.2 [] (typeLine " cD  Abo".toList (initialSession "home".toList))
      " cD  ".toList "Abo".toList "about".toList (by decide) (by decide) (by decide) (by decide)
      (by decide)).1, by decide,
    (completion_accepted.1 [] (typeLine "wh".toList (initialSession "home".toList))
      [] "wh".toList "whoami".toList (by decide) (by decide) (by decide) (by decide)).1⟩

/-- A character is no surrogate. -/
theorem char_not_surrogate (c : Char) : c.toNat < 0xD800 ∨ 0xDFFF < c.toNat := by
  have h := c.valid
  simp only [UInt32.isValidChar, Nat.isValidChar] at h
  have e : c.toNat = c.val.toNat := rfl
  omega

/-- A string without a character above U+FFFF has one code unit for each
character. -/
theorem toCodeUnits_bmp (text : Str) (hbmp : ∀ ch ∈ text, ch.toNat < 0x10000) :
    toCodeUnits text = text.map Char.toNat := by
  induction text with
  | nil => rfl
  | cons c cs ih =>
    have hc : c.toNat < 0x10000 := hbmp c (List.mem_cons_self _ _)
    simp only [toCodeUnits, hc, if_true, List.map_cons,
      ih (fun ch hch => hbmp ch (List.mem_cons_of_mem _ hch))]

/-- One code unit that comes from a character gives that character back. -/
theorem unitChar_toNat (c : Char) : unitChar c.toNat = c := by
  have h := char_not_surrogate c
  have hnot : ¬ (0xD800 ≤ c.toNat ∧ c.toNat < 0xE000) := by omega
  simp only [unitChar, hnot, if_false, Char.ofNat_toNat]

/-- Decoding the code units of characters gives the characters back. -/
theorem fromCodeUnits_map_toNat (text : Str) :
    fromCodeUnits (text.map Char.toNat) = text := by
  induction text with
  | nil => rfl
  | cons c cs ih =>
    cases cs with
    | nil => simp only [List.map_cons, List.map_nil, fromCodeUnits, unitChar_toNat]
    | cons d ds =>
      have h := char_not_surrogate c
      have hnot : ¬ (0xD800 ≤ c.toNat ∧ c.toNat < 0xDC00 ∧ 0xDC00 ≤ d.toNat ∧
          d.toNat < 0xE000) := by omega
      simp only [List.map_cons, fromCodeUnits, hnot, if_false, unitChar_toNat]
      simp only [List.map_cons] at ih
      rw [ih]

/-- On candidates without a character above U+FFFF the common prefix of the
code units is the code units of a string, and that string is a prefix of every
candidate. -/
theorem commonPrefix_wellformed (candidates : List Str) (hne : candidates ≠ [])
    (hbmp : ∀ v ∈ candidates, ∀ ch ∈ v, ch.toNat < 0x10000) :
    toCodeUnits (fromCodeUnits (commonPrefix (candidates.map toCodeUnits))) =
        commonPrefix (candidates.map toCodeUnits) ∧
      ∀ v ∈ candidates, fromCodeUnits (commonPrefix (candidates.map toCodeUnits)) <+: v := by
  have hne' : candidates.map toCodeUnits ≠ [] := fun h => hne (List.map_eq_nil_iff.mp h)
  obtain ⟨hpre, _⟩ := commonPrefix_spec (candidates.map toCodeUnits) hne'
  have hshape : ∀ v ∈ candidates, commonPrefix (candidates.map toCodeUnits) =
      (v.take (commonPrefix (candidates.map toCodeUnits)).length).map Char.toNat := by
    intro v hv
    have h := hpre (toCodeUnits v) (List.mem_map_of_mem _ hv)
    rw [toCodeUnits_bmp v (hbmp v hv)] at h
    rw [List.map_take]
    exact List.prefix_iff_eq_take.mp h
  have hdecode : ∀ v ∈ candidates, fromCodeUnits (commonPrefix (candidates.map toCodeUnits)) =
      v.take (commonPrefix (candidates.map toCodeUnits)).length := by
    intro v hv
    have h := hshape v hv
    rw [h, fromCodeUnits_map_toNat]
    rw [← h]
  constructor
  · obtain ⟨v, hv⟩ := List.exists_mem_of_ne_nil candidates hne
    rw [hdecode v hv]
    rw [toCodeUnits_bmp _ (fun ch hch => hbmp v hv ch (List.mem_of_mem_take hch))]
    exact (hshape v hv).symm
  · intro v hv
    rw [hdecode v hv]
    exact List.take_prefix _ _

/-- C14: with two or more candidates, `applyCompletion` compares the common
prefix of the candidates, counted in UTF-16 code units as the code does, with
the partial token: when it is strictly longer the input becomes the text before
the partial token followed by that common prefix (no blank added, no output),
stated for a common prefix that is the code units of a string, which holds
whenever the candidates have no character above U+FFFF, as in the registry;
otherwise the input stays and the one non-error line `Suggestions:` followed by
the candidates in the order given, separated by two blanks, is appended. The
common prefix is a prefix of every candidate and every common prefix is a prefix
of it; the candidates `handleAutocomplete` passes are in registry order; Tab on
`c` has the candidates `cd` and `clear`, leaves the input and appends
`Suggestions: cd  clear`. -/
theorem complete_multiple_candidates :
    (∀ (s : Session) (lead typed : Str) (candidates : List Str),
      2 ≤ candidates.length →
      (jsLength typed < (commonPrefix (candidates.map toCodeUnits)).length →
        toCodeUnits (fromCodeUnits (commonPrefix (candidates.map toCodeUnits))) =
          commonPrefix (candidates.map toCodeUnits) →
        applyCompletion lead typed candidates s =
          { s with
            inputValue := lead ++ fromCodeUnits (commonPrefix (candidates.map toCodeUnits))
            selectionStart :=
              (lead ++ fromCodeUnits (commonPrefix (candidates.map toCodeUnits))).length }) ∧
      (¬ jsLength typed < (commonPrefix (candidates.map toCodeUnits)).length →
        applyCompletion lead typed candidates s =
          { s with historyContainer := s.historyContainer ++
              [OutputNode.output
                ["Suggestions: ".toList ++ "  ".toList.intercalate candidates] false] }) ∧
      (∀ v ∈ candidates, commonPrefix (candidates.map toCodeUnits) <+: toCodeUnits v) ∧
      (∀ q : List Nat, (∀ v ∈ candidates, q <+: toCodeUnits v) →
        q <+: commonPrefix (candidates.map toCodeUnits))) ∧
    (∀ candidates : List Str, candidates ≠ [] →
      (∀ v ∈ candidates, ∀ ch ∈ v, ch.toNat < 0x10000) →
      toCodeUnits (fromCodeUnits (commonPrefix (candidates.map toCodeUnits))) =
        commonPrefix (candidates.map toCodeUnits) ∧
      ∀ v ∈ candidates, startsWith v
        (fromCodeUnits (commonPrefix (candidates.map toCodeUnits))) = true) ∧
    (∀ v ∈ COMMANDS ++ (NAV_TARGETS ++ CD_ALIASES), ∀ ch ∈ v, ch.toNat < 0x10000) ∧
    (∀ typed : Str,
      List.Sublist (COMMANDS.filter (fun item => startsWith item typed)) COMMANDS ∧
      List.Sublist ((NAV_TARGETS ++ CD_ALIASES).filter (fun item => startsWith item typed))
        (NAV_TARGETS ++ CD_ALIASES)) ∧
    (COMMANDS.filter (fun item => startsWith item (toLowerCase "c".toList)) =
        ["cd".toList, "clear".toList] ∧
      commonPrefix (["cd".toList, "clear".toList].map toCodeUnits) = toCodeUnits "c".toList ∧
      ∀ s : Session, handleAutocomplete (typeLine "c".toList s) =
        { s with inputValue := "c".toList
                 selectionStart := 1
                 historyContainer := s.historyContainer ++
                   [OutputNode.output ["Suggestions: cd  clear".toList] false] }) := by
  refine ⟨?_, ?_, by decide, fun typed => ⟨List.filter_sublist _, List.filter_sublist _⟩,
    by decide, by decide, ?_⟩
  · intro s lead typed candidates hlen
    have hne : candidates ≠ [] := by
      rintro rfl
      simp at hlen
    have hne' : candidates.map toCodeUnits ≠ [] := fun h => hne (List.map_eq_nil_iff.mp h)
    obtain ⟨h1, h2⟩ := commonPrefix_spec (candidates.map toCodeUnits) hne'
    refine ⟨?_, ?_, fun v hv => h1 _ (List.mem_map_of_mem _ hv), ?_⟩
    · intro hlonger _
      match candidates, hlen with
      | a :: b :: rest, _ =>
        simp only [applyCompletion, gt_iff_lt, hlonger, if_true, placeCursorAtEnd]
    · intro hnot
      match candidates, hlen with
      | a :: b :: rest, _ =>
        simp only [applyCompletion, gt_iff_lt, hnot, if_false, appendOutput]
    · intro q hall
      apply h2
      intro u hu
      obtain ⟨v, hv, rfl⟩ := List.mem_map.mp hu
      exact hall v hv
  · intro candidates hne hbmp
    obtain ⟨h1, h2⟩ := commonPrefix_wellformed candidates hne hbmp
    exact ⟨h1, fun v hv => (startsWith_iff _ _).mpr (h2 v hv)⟩
  · intro s
    obtain ⟨hleft, hright⟩ := caret_at_end (typeLine "c".toList s) rfl
    have hnone : matchCd "c".toList = none := by decide
    have hsome : matchCommand "c".toList = some ([], "c".toList) := by decide
    rw [handleAutocomplete_command (typeLine "c".toList s) [] "c".toList hright
      (by rw [hleft]; exact hnone) (by rw [hleft]; exact hsome)]
    have hc : COMMANDS.filter (fun item => startsWith item (toLowerCase "c".toList)) =
        ["cd".toList, "clear".toList] := by decide
    have hp : commonPrefix (["cd".toList, "clear".toList].map toCodeUnits) =
        toCodeUnits "c".toList := by decide
    rw [hc]
    simp only [applyCompletion, hp]
    rw [if_neg (by decide)]
    simp only [appendOutput, typeLine]
    have hline : "Suggestions: ".toList ++ "  ".toList.intercalate ["cd".toList, "clear".toList] =
        "Suggestions: cd  clear".toList := by decide
    rw [hline]
    rfl

theorem complete_multiple_candidates_witness :
    applyCompletion "cd ".toList "c".toList ["certs".toList, "contact".toList]
        (initialSession "home".toList) =
      { initialSession "home".toList with
        historyContainer :=
          [OutputNode.output ["Suggestions: certs  contact".toList] false] } ∧
    applyCompletion [] "a".toList ["abc".toList, "abd".toList] (initialSession "home".toList) =
      { initialSession "home".toList with inputValue := "ab".toList, selectionStart := 2 } := by
  constructor
  · rw [(complete_multiple_candidates.1 (initialSession "home".toList) "cd ".toList "c".toList
      ["certs".toList, "contact".toList] (by decide)).2.1 (by decide)]
    decide
  · rw [(complete_multiple_candidates.1 (initialSession "home".toList) [] "a".toList
      ["abc".toList, "abd".toList] (by decide)).1 (by decide) (by decide)]
    decide

/-- A prefix of at least two units fixes the first two units. -/
theorem prefix_take_two {α : Type} {p a : List α} (hp : p <+: a) (hlen : 2 ≤ p.length) :
    a.take 2 = p.take 2 := by
  obtain ⟨t, rfl⟩ := hp
  exact List.take_append_of_le_length hlen

/-- In a registry without repetition whose entries differ in their first two
code units and have no common prefix, the common prefix of two or more entries
that start with `typed` is not longer than `typed`. -/
theorem commonPrefix_filter_le (registry : List Str) (typed : Str)
    (hnodup : registry.Nodup)
    (hpair : ∀ a ∈ registry, ∀ b ∈ registry, a ≠ b →
      (toCodeUnits a).take 2 ≠ (toCodeUnits b).take 2)
    (hall : commonPrefix (registry.map toCodeUnits) = [])
    (htwo : 2 ≤ (registry.filter (fun item => startsWith item typed)).length) :
    (commonPrefix ((registry.filter (fun item => startsWith item typed)).map
      toCodeUnits)).length ≤ jsLength typed := by
  cases typed with
  | nil =>
    have hfilter : registry.filter (fun item => startsWith item []) = registry := by
      rw [List.filter_eq_self]
      intro a _
      simp [startsWith]
    rw [hfilter, hall]
    exact Nat.zero_le _
  | cons c cs =>
    have hnd := hnodup.filter (fun item => startsWith item (c :: cs))
    match hcands : registry.filter (fun item => startsWith item (c :: cs)), htwo with
    | a :: b :: rest, _ =>
      rw [hcands] at hnd
      have ha : a ∈ registry := by
        have : a ∈ registry.filter (fun item => startsWith item (c :: cs)) := by
          rw [hcands]
          exact List.mem_cons_self _ _
        exact (List.mem_filter.mp this).1
      have hb : b ∈ registry := by
        have : b ∈ registry.filter (fun item => startsWith item (c :: cs)) := by
          rw [hcands]
          exact List.mem_cons_of_mem _ (List.mem_cons_self _ _)
        exact (List.mem_filter.mp this).1
      have hab : a ≠ b := by
        intro h
        rw [List.nodup_cons] at hnd
        exact hnd.1 (by rw [h]; exact List.mem_cons_self _ _)
      obtain ⟨hpre, _⟩ := commonPrefix_spec ((a :: b :: rest).map toCodeUnits)
        (List.cons_ne_nil _ _)
      have hpa := hpre (toCodeUnits a) (List.mem_cons_self _ _)
      have hpb := hpre (toCodeUnits b) (List.mem_cons_of_mem _ (List.mem_cons_self _ _))
      have hshort : (commonPrefix ((a :: b :: rest).map toCodeUnits)).length ≤ 1 := by
        by_contra hlong
        have h2 : 2 ≤ (commonPrefix ((a :: b :: rest).map toCodeUnits)).length := by omega
        exact hpair a ha b hb hab
          ((prefix_take_two hpa h2).trans (prefix_take_two hpb h2).symm)
      have htyped := length_le_jsLength (c :: cs)
      simp only [List.length_cons] at htyped
      omega

/-- With two or more candidates whose common prefix is not longer than the
partial token, `applyCompletion` appends the suggestions line. -/
theorem applyCompletion_suggestions (lead typed : Str) (candidates : List Str) (s : Session)
    (htwo : 2 ≤ candidates.length)
    (hle : (commonPrefix (candidates.map toCodeUnits)).length ≤ jsLength typed) :
    applyCompletion lead typed candidates s =
      { s with historyContainer := s.historyContainer ++
          [OutputNode.output
            ["Suggestions: ".toList ++ "  ".toList.intercalate candidates] false] } := by
  have hnot : ¬ (commonPrefix (candidates.map toCodeUnits)).length > jsLength typed := by
    omega
  match candidates, htwo with
  | a :: b :: rest, _ =>
    simp only [applyCompletion, hnot, if_false, appendOutput]

/-- Every outcome of `handleAutocomplete` is the session itself or an
`applyCompletion` on the registry entries that start with the partial token. -/
theorem handleAutocomplete_cases (s : Session) :
    handleAutocomplete s = s ∨
    (∃ lead typed, handleAutocomplete s = applyCompletion lead typed
      ((NAV_TARGETS ++ CD_ALIASES).filter (fun item => startsWith item typed)) s) ∨
    (∃ lead typed, handleAutocomplete s = applyCompletion lead typed
      (COMMANDS.filter (fun item => startsWith item typed)) s) := by
  by_cases hright : (s.inputValue.drop s.selectionStart).any isWhitespace = true
  · exact Or.inl (by simp only [handleAutocomplete, hright, if_true])
  · have hfalse : (s.inputValue.drop s.selectionStart).any isWhitespace = false := by
      simpa using hright
    cases hcd : matchCd (s.inputValue.take s.selectionStart) with
    | some pair =>
      exact Or.inr (Or.inl ⟨pair.1, toLowerCase pair.2,
        handleAutocomplete_cd s pair.1 pair.2 hfalse hcd⟩)
    | none =>
      cases hcmd : matchCommand (s.inputValue.take s.selectionStart) with
      | some pair =>
        exact Or.inr (Or.inr ⟨pair.1, toLowerCase pair.2,
          handleAutocomplete_command s pair.1 pair.2 hfalse hcd hcmd⟩)
      | none =>
        exact Or.inl (by
          simp only [handleAutocomplete, hfalse, hcd, hcmd, Bool.false_eq_true, if_false])

/-- C18: with the built-in registry, when two or more commands, or two or more
nav targets and aliases, start with the partial token, their common prefix
(counted in code units, as the code does) is not longer than the partial token.
So whenever Tab reaches `applyCompletion` with two or more candidates - in the
`cd` argument context or in the command context, with no whitespace right of
the caret - it leaves the input and appends the suggestions line of these
candidates; and a Tab that changes the input is a single-candidate completion:
the input is never extended to a common prefix. -/
theorem common_prefix_branch_unreachable :
    (∀ typed : Str,
      (2 ≤ (COMMANDS.filter (fun item => startsWith item typed)).length →
        (commonPrefix ((COMMANDS.filter (fun item => startsWith item typed)).map
          toCodeUnits)).length ≤ jsLength typed) ∧
      (2 ≤ ((NAV_TARGETS ++ CD_ALIASES).filter (fun item => startsWith item typed)).length →
        (commonPrefix (((NAV_TARGETS ++ CD_ALIASES).filter
          (fun item => startsWith item typed)).map toCodeUnits)).length ≤ jsLength typed)) ∧
    (∀ (s : Session) (lead typed : Str),
      (∀ ch ∈ s.inputValue.drop s.selectionStart, isWhitespace ch = false) →
      matchCd (s.inputValue.take s.selectionStart) = some (lead, typed) →
      2 ≤ ((NAV_TARGETS ++ CD_ALIASES).filter
        (fun item => startsWith item (toLowerCase typed))).length →
      handleAutocomplete s =
        { s with historyContainer := s.historyContainer ++
            [OutputNode.output
              ["Suggestions: ".toList ++ "  ".toList.intercalate
                ((NAV_TARGETS ++ CD_ALIASES).filter
                  (fun item => startsWith item (toLowerCase typed)))] false] }) ∧
    (∀ (s : Session) (lead typed : Str),
      (∀ ch ∈ s.inputValue.drop s.selectionStart, isWhitespace ch = false) →
      matchCd (s.inputValue.take s.selectionStart) = none →
      matchCommand (s.inputValue.take s.selectionStart) = some (lead, typed) →
      2 ≤ (COMMANDS.filter (fun item => startsWith item (toLowerCase typed))).length →
      handleAutocomplete s =
        { s with historyContainer := s.historyContainer ++
            [OutputNode.output
              ["Suggestions: ".toList ++ "  ".toList.intercalate
                (COMMANDS.filter
                  (fun item => startsWith item (toLowerCase typed)))] false] }) ∧
    (∀ s : Session, (handleAutocomplete s).inputValue ≠ s.inputValue →
      ∃ lead candidate, candidate ∈ COMMANDS ++ (NAV_TARGETS ++ CD_ALIASES) ∧
        handleAutocomplete s =
          { s with inputValue := lead ++ candidate ++ " ".toList
                   selectionStart := (lead ++ candidate ++ " ".toList).length }) := by
  have hcommands : ∀ typed : Str,
      2 ≤ (COMMANDS.filter (fun item => startsWith item typed)).length →
      (commonPrefix ((COMMANDS.filter (fun item => startsWith item typed)).map
        toCodeUnits)).length ≤ jsLength typed := fun typed =>
    commonPrefix_filter_le COMMANDS typed (by decide) (by decide) (by decide)
  have htargets : ∀ typed : Str,
      2 ≤ ((NAV_TARGETS ++ CD_ALIASES).filter (fun item => startsWith item typed)).length →
      (commonPrefix (((NAV_TARGETS ++ CD_ALIASES).filter
        (fun item => startsWith item typed)).map toCodeUnits)).length ≤ jsLength typed :=
    fun typed =>
    commonPrefix_filter_le (NAV_TARGETS ++ CD_ALIASES) typed (by decide) (by decide)
      (by decide)
  have hright : ∀ s : Session,
      (∀ ch ∈ s.inputValue.drop s.selectionStart, isWhitespace ch = false) →
      (s.inputValue.drop s.selectionStart).any isWhitespace = false := by
    intro s hall
    rw [List.any_eq_false]
    intro ch hch
    simp [hall ch hch]
  have single : ∀ (s : Session) (before typed : Str) (registry : List Str),
      (∀ t : Str, 2 ≤ (registry.filter (fun item => startsWith item t)).length →
        (commonPrefix ((registry.filter (fun item => startsWith item t)).map
          toCodeUnits)).length ≤ jsLength t) →
      (applyCompletion before typed
        (registry.filter (fun item => startsWith item typed)) s).inputValue ≠ s.inputValue →
      ∃ lead candidate, candidate ∈ registry ∧
        applyCompletion before typed (registry.filter (fun item => startsWith item typed)) s =
          { s with inputValue := lead ++ candidate ++ " ".toList
                   selectionStart := (lead ++ candidate ++ " ".toList).length } := by
    intro s before typed registry hbound hchanged
    match hc : registry.filter (fun item => startsWith item typed) with
    | [] =>
      rw [hc] at hchanged
      exact absurd rfl hchanged
    | [only] =>
      have hmem : only ∈ registry := by
        have : only ∈ registry.filter (fun item => startsWith item typed) := by
          rw [hc]
          exact List.mem_singleton_self _
        exact (List.mem_filter.mp this).1
      exact ⟨before, only, hmem, rfl⟩
    | a :: b :: rest =>
      have htwo : 2 ≤ (registry.filter (fun item => startsWith item typed)).length := by
        rw [hc]
        simp
      have hle := hbound typed htwo
      rw [hc] at hle hchanged
      rw [applyCompletion_suggestions before typed (a :: b :: rest) s (by simp) hle]
        at hchanged
      exact absurd rfl hchanged
  refine ⟨fun typed => ⟨hcommands typed, htargets typed⟩, ?_, ?_, ?_⟩
  · intro s lead typed hnows hmatch htwo
    rw [handleAutocomplete_cd s lead typed (hright s hnows) hmatch]
    exact applyCompletion_suggestions lead _ _ s htwo (htargets _ htwo)
  · intro s lead typed hnows hcd hmatch htwo
    rw [handleAutocomplete_command s lead typed (hright s hnows) hcd hmatch]
    exact applyCompletion_suggestions lead _ _ s htwo (hcommands _ htwo)
  · intro s hchanged
    rcases handleAutocomplete_cases s with h | ⟨before, typed, h⟩ | ⟨before, typed, h⟩
    · rw [h] at hchanged
      exact absurd rfl hchanged
    · rw [h] at hchanged
      obtain ⟨lead, cand, hmem, heq⟩ :=
        single s before typed (NAV_TARGETS ++ CD_ALIASES) htargets hchanged
      exact ⟨lead, cand, List.mem_append_right _ hmem, h.trans heq⟩
    · rw [h] at hchanged
      obtain ⟨lead, cand, hmem, heq⟩ := single s before typed COMMANDS hcommands hchanged
      exact ⟨lead, cand, List.mem_append_left _ hmem, h.trans heq⟩

theorem common_prefix_branch_unreachable_witness :
    handleAutocomplete (typeLine "cd C".toList (initialSession "home".toList)) =
      { typeLine "cd C".toList (initialSession "home".toList) with
        historyContainer :=
          [OutputNode.output ["Suggestions: certs  contact".toList] false] } ∧
    handleAutocomplete (typeLine " ".toList (initialSession "home".toList)) =
      { typeLine " ".toList (initialSession "home".toList) with
        historyContainer :=
          [OutputNode.output
            ["Suggestions: help  ls  cd  whoami  date  clear".toList] false] } := by
  constructor
  · rw [common_prefix_branch_unreachable.2.1
      (typeLine "cd C".toList (initialSession "home".toList)) "cd ".toList "C".toList
      (by decide) (by decide) (by decide)]
    decide
  · rw [common_prefix_branch_unreachable.2.2.1
      (typeLine " ".toList (initialSession "home".toList)) " ".toList []
      (by decide) (by decide) (by decide) (by decide)]
    decide

/-- Lower-casing keeps a whitespace character. -/
theorem lowerChar_of_whitespace (c : Char) (h : isWhitespace c = true) : lowerChar c = c := by
  have hnot : ¬ ('A'.toNat ≤ c.toNat ∧ c.toNat ≤ 'Z'.toNat) := by
    intro hrange
    have hA : 'A'.toNat = 65 := rfl
    have hZ : 'Z'.toNat = 90 := rfl
    rw [hA, hZ] at hrange
    simp only [isWhitespace, Bool.or_eq_true, beq_iff_eq, Bool.and_eq_true,
      decide_eq_true_eq] at h
    omega
  simp only [lowerChar, hnot, if_false]

/-- A text whose lower-cased form has no whitespace has no whitespace. -/
theorem no_whitespace_of_toLowerCase (a : Str)
    (h : ∀ ch ∈ toLowerCase a, isWhitespace ch = false) :
    ∀ ch ∈ a, isWhitespace ch = false := by
  intro ch hch
  by_contra hws
  have hws' : isWhitespace ch = true := by simpa using hws
  have hmem : lowerChar ch ∈ toLowerCase a := List.mem_map_of_mem _ hch
  rw [lowerChar_of_whitespace ch hws'] at hmem
  rw [h ch hmem] at hws'
  exact Bool.noConfusion hws'

/-- Trimming keeps a text without whitespace. -/
theorem trim_of_no_whitespace (text : Str) (h : ∀ ch ∈ text, isWhitespace ch = false) :
    trim text = text := by
  cases htext : text with
  | nil => rfl
  | cons x mid =>
    rw [← htext]
    have hne : text ≠ [] := by
      rw [htext]
      exact List.cons_ne_nil _ _
    have hkey := trim_padded [] text [] (fun ch hch => absurd hch (List.not_mem_nil ch))
      (fun ch hch => absurd hch (List.not_mem_nil ch)) hne
      (fun y back hy => h y (by rw [hy]; exact List.mem_cons_self _ _))
      (fun y back hy => h y (List.mem_reverse.mp (by rw [hy]; exact List.mem_cons_self _ _)))
    simpa using hkey

/-- Removing the trailing slashes of a text followed by slashes gives the text,
when the text does not end in a slash. -/
theorem stripTrailingSlashes_append (t : Str) (k : Nat)
    (hend : t.reverse.dropWhile (fun c => c == '/') = t.reverse) :
    stripTrailingSlashes (t ++ List.replicate k '/') = t := by
  have hall : ∀ ch ∈ List.replicate k '/', (fun c : Char => c == '/') ch = true := by
    intro ch hch
    rw [List.eq_of_mem_replicate hch]
    rfl
  unfold stripTrailingSlashes
  rw [List.reverse_append, List.reverse_replicate, List.dropWhile_append_of_pos hall, hend,
    List.reverse_reverse]

/-- Lower-casing keeps a run of slashes. -/
theorem toLowerCase_slashes (k : Nat) :
    toLowerCase (List.replicate k '/') = List.replicate k '/' := by
  simp only [toLowerCase, List.map_replicate]
  rfl

/-- The normalization of a nav target, `~` or `..` written in any case, after
nothing, `./` or `/`, and followed by any number of slashes. -/
theorem normalizeTarget_decorated (lead a t : Str) (k : Nat)
    (hlead : lead = [] ∨ lead = "./".toList ∨ lead = "/".toList)
    (hlow : toLowerCase a = t)
    (ht : t ∈ NAV_TARGETS ++ ["~".toList, "..".toList]) :
    normalizeTarget (lead ++ a ++ List.replicate k '/') = t := by
  have hfacts : ∀ x ∈ NAV_TARGETS ++ ["~".toList, "..".toList],
      (∀ ch ∈ x, isWhitespace ch = false) ∧
      x.reverse.dropWhile (fun c => c == '/') = x.reverse := by decide
  obtain ⟨htws, htend⟩ := hfacts t ht
  have haws : ∀ ch ∈ a, isWhitespace ch = false :=
    no_whitespace_of_toLowerCase a (by rw [hlow]; exact htws)
  have hleadws : ∀ ch ∈ lead, isWhitespace ch = false := by
    rcases hlead with rfl | rfl | rfl <;> decide
  have hleadlow : toLowerCase lead = lead := by
    rcases hlead with rfl | rfl | rfl <;> decide
  have hnows : ∀ ch ∈ lead ++ a ++ List.replicate k '/', isWhitespace ch = false := by
    intro ch hch
    simp only [List.mem_append] at hch
    rcases hch with (h | h) | h
    · exact hleadws ch h
    · exact haws ch h
    · rw [List.eq_of_mem_replicate h]
      decide
  have hlower : toLowerCase (lead ++ a ++ List.replicate k '/') =
      lead ++ t ++ List.replicate k '/' := by
    have happ : ∀ x y : Str, toLowerCase (x ++ y) = toLowerCase x ++ toLowerCase y := by
      intro x y
      simp [toLowerCase]
    rw [happ, happ, hleadlow, hlow, toLowerCase_slashes]
  have hstrip : stripLeadingSlash (lead ++ t ++ List.replicate k '/') =
      t ++ List.replicate k '/' := by
    rcases hlead with rfl | rfl | rfl
    · simp only [NAV_TARGETS, List.mem_append, List.mem_cons, List.mem_singleton,
        List.not_mem_nil, or_false] at ht
      rcases ht with (h | h | h | h | h) | h | h <;> subst h <;> rfl
    · rfl
    · rfl
  unfold normalizeTarget
  rw [trim_of_no_whitespace _ hnows, hlower, hstrip, stripTrailingSlashes_append t k htend]

/-- The normalization of nothing, `./` or `/`, followed by any number of
slashes, is the empty string. -/
theorem normalizeTarget_slashes (lead : Str) (k : Nat)
    (hlead : lead = [] ∨ lead = "./".toList ∨ lead = "/".toList) :
    normalizeTarget (lead ++ List.replicate k '/') = [] := by
  have hempty : ∀ j : Nat, stripTrailingSlashes (List.replicate j '/') = [] := by
    intro j
    have h := stripTrailingSlashes_append [] j rfl
    simpa using h
  have hleadws : ∀ ch ∈ lead, isWhitespace ch = false := by
    rcases hlead with rfl | rfl | rfl <;> decide
  have hleadlow : toLowerCase lead = lead := by
    rcases hlead with rfl | rfl | rfl <;> decide
  have hnows : ∀ ch ∈ lead ++ List.replicate k '/', isWhitespace ch = false := by
    intro ch hch
    simp only [List.mem_append] at hch
    rcases hch with h | h
    · exact hleadws ch h
    · rw [List.eq_of_mem_replicate h]
      decide
  have hlower : toLowerCase (lead ++ List.replicate k '/') = lead ++ List.replicate k '/' := by
    have happ : ∀ x y : Str, toLowerCase (x ++ y) = toLowerCase x ++ toLowerCase y := by
      intro x y
      simp [toLowerCase]
    rw [happ, hleadlow, toLowerCase_slashes]
  unfold normalizeTarget
  rw [trim_of_no_whitespace _ hnows, hlower]
  rcases hlead with rfl | rfl | rfl
  · cases k with
    | zero => rfl
    | succ j =>
      have hs : stripLeadingSlash ([] ++ List.replicate (j + 1) '/') = List.replicate j '/' := rfl
      rw [hs, hempty]
  · have hs : stripLeadingSlash ("./".toList ++ List.replicate k '/') = List.replicate k '/' :=
      rfl
    rw [hs, hempty]
  · have hs : stripLeadingSlash ("/".toList ++ List.replicate k '/') = List.replicate k '/' :=
      rfl
    rw [hs, hempty]

/-- C1 fails as stated: in the line `cd about` followed by a blank and the
letter U+00E9, the second token `about` normalizes to a nav target, yet on the
home page the submission prints the invalid-characters error and schedules no
navigation; and from `cd`, 196 blanks and `ab` (200 characters), Tab gives the
argument `about` on a line of 203 characters after trimming, whose submission
prints the too-long error and schedules no navigation. -/
theorem cd_nav_target_counterexample :
    ((tokenize (trim ("cd about ".toList ++ [Char.ofNat 233])))[1]? = some "about".toList ∧
      normalizeTarget "about".toList ∈ NAV_TARGETS ∧
      (submit [] ("cd about ".toList ++ [Char.ofNat 233])
          (initialSession "home".toList)).historyContainer =
        [OutputNode.echo ("cd about ".toList ++ [Char.ofNat 233]),
         OutputNode.output
           ["Unsupported control characters detected in input.".toList] true] ∧
      (submit [] ("cd about ".toList ++ [Char.ofNat 233])
          (initialSession "home".toList)).navigations = []) ∧
    ((run (initialSession "home".toList)
        [Event.edit ("cd".toList ++ List.replicate 196 ' ' ++ "ab".toList) 200,
         Event.tab]).inputValue =
        "cd".toList ++ List.replicate 196 ' ' ++ "about ".toList ∧
      (run (initialSession "home".toList)
        [Event.edit ("cd".toList ++ List.replicate 196 ' ' ++ "ab".toList) 200,
         Event.tab, Event.enter []]).historyContainer =
        [OutputNode.echo ("cd".toList ++ List.replicate 196 ' ' ++ "about".toList),
         OutputNode.output
           ["Input too long. Keep commands below 200 characters.".toList] true] ∧
      (run (initialSession "home".toList)
        [Event.edit ("cd".toList ++ List.replicate 196 ' ' ++ "ab".toList) 200,
         Event.tab, Event.enter []]).navigations = []) := by
  refine ⟨⟨by decide, by decide, by decide, by decide⟩, ?_, ?_, ?_⟩
  · set_option maxRecDepth 100000 in decide
  · set_option maxRecDepth 100000 in decide
  · set_option maxRecDepth 100000 in decide

/-- C1, amended: on every current page, a submitted line that passes validation
(trimmed text at most 200 long, only characters 0x20-0x7E), whose first token is
`cd` in any case and whose second token `a` normalizes to a nav target `t`,
prints after the echo the one line `Already at /t` and schedules no navigation
when `t` is the current page; otherwise it prints the one line
`Navigating to /t...` and schedules exactly one navigation, to `PAGE_MAP[t]`,
which is defined for every nav target (`index.html`, `about.html`,
`projects.html`, `certs.html`, `contact.html`). The normalization maps to `t`
every spelling of `t` in any case, after nothing, `./` or `/`, and followed by
any number of slashes; `cd ./About/` and `cd /PROJECTS//` are evaluated on
every session. -/
theorem cd_nav_target :
    (∀ (now line c a t : Str) (rest : List Str) (s : Session),
      jsLength (trim line) ≤ MAX_COMMAND_LENGTH →
      (∀ ch ∈ trim line, isPrintableAscii ch = true) →
      tokenize (trim line) = c :: a :: rest →
      toLowerCase c = "cd".toList →
      normalizeTarget a = t →
      t ∈ NAV_TARGETS →
      (t = s.currentPage →
        submit now line s =
          { currentPage := s.currentPage
            history := recordHistory (trim line) s.history
            historyIndex := -1
            inputValue := []
            selectionStart := 0
            historyContainer := s.historyContainer ++
              [OutputNode.echo (trim line),
               OutputNode.output ["Already at /".toList ++ t] false]
            fadeOut := s.fadeOut
            navigations := s.navigations }) ∧
      (t ≠ s.currentPage →
        submit now line s =
          { currentPage := s.currentPage
            history := recordHistory (trim line) s.history
            historyIndex := -1
            inputValue := []
            selectionStart := 0
            historyContainer := s.historyContainer ++
              [OutputNode.echo (trim line),
               OutputNode.output ["Navigating to /".toList ++ t ++ "...".toList] false]
            fadeOut := true
            navigations := s.navigations ++ [PAGE_MAP t] }) ∧
      (∃ destination, PAGE_MAP t = some destination)) ∧
    (PAGE_MAP "home".toList = some "index.html".toList ∧
      PAGE_MAP "about".toList = some "about.html".toList ∧
      PAGE_MAP "projects".toList = some "projects.html".toList ∧
      PAGE_MAP "certs".toList = some "certs.html".toList ∧
      PAGE_MAP "contact".toList = some "contact.html".toList) ∧
    (∀ (lead a t : Str) (k : Nat),
      lead = [] ∨ lead = "./".toList ∨ lead = "/".toList →
      toLowerCase a = t → t ∈ NAV_TARGETS →
      normalizeTarget (lead ++ a ++ List.replicate k '/') = t) ∧
    (∀ (now : Str) (s : Session),
      (s.currentPage ≠ "about".toList →
        (submit now "cd ./About/".toList s).historyContainer = s.historyContainer ++
          [OutputNode.echo "cd ./About/".toList,
           OutputNode.output ["Navigating to /about...".toList] false] ∧
        (submit now "cd ./About/".toList s).navigations =
          s.navigations ++ [some "about.html".toList]) ∧
      (s.currentPage = "projects".toList →
        (submit now "cd /PROJECTS//".toList s).historyContainer = s.historyContainer ++
          [OutputNode.echo "cd /PROJECTS//".toList,
           OutputNode.output ["Already at /projects".toList] false] ∧
        (submit now "cd /PROJECTS//".toList s).navigations = s.navigations)) := by
  have key : ∀ (now line c a t : Str) (rest : List Str) (s : Session),
      jsLength (trim line) ≤ MAX_COMMAND_LENGTH →
      (∀ ch ∈ trim line, isPrintableAscii ch = true) →
      tokenize (trim line) = c :: a :: rest →
      toLowerCase c = "cd".toList →
      normalizeTarget a = t →
      t ∈ NAV_TARGETS →
      submit now line s =
        if t = s.currentPage then
          appendOutput ["Already at /".toList ++ t] false (recorded (trim line) s)
        else startNavigation (PAGE_MAP t)
          (appendOutput ["Navigating to /".toList ++ t ++ "...".toList] false
            (recorded (trim line) s)) := by
    intro now line c a t rest s hlen hascii htok hcd hnorm ht
    have hsub := submit_eq_dispatch now line s (trim_ne_nil_of_tokenize htok) hlen hascii
    rw [htok, dispatch_cd now c (a :: rest) _ hcd] at hsub
    simp only [List.head?_cons, Option.getD_some] at hsub
    rw [handleCd_navTarget a t _ hnorm ht] at hsub
    exact hsub
  refine ⟨?_, by decide, ?_, ?_⟩
  · intro now line c a t rest s hlen hascii htok hcd hnorm ht
    have hsub := key now line c a t rest s hlen hascii htok hcd hnorm ht
    refine ⟨?_, ?_, ?_⟩
    · intro h
      rw [hsub]
      simp [recorded, h, appendOutput]
    · intro h
      rw [hsub]
      simp [recorded, h, appendOutput, startNavigation]
    · simp only [NAV_TARGETS, List.mem_cons, List.mem_singleton, List.not_mem_nil,
        or_false] at ht
      rcases ht with h | h | h | h | h <;> subst h <;> exact ⟨_, rfl⟩
  · intro lead a t k hlead hlow ht
    exact normalizeTarget_decorated lead a t k hlead hlow (List.mem_append_left _ ht)
  · intro now s
    constructor
    · intro hpage
      have hsub := key now "cd ./About/".toList "cd".toList "./About/".toList "about".toList []
        s (by decide) (by decide) (by decide) (by decide) (by decide) (by decide)
      have hne : ¬ "about".toList = s.currentPage := fun h => hpage h.symm
      have e1 : trim "cd ./About/".toList = "cd ./About/".toList := by decide
      have e2 : "Navigating to /".toList ++ "about".toList ++ "...".toList =
          "Navigating to /about...".toList := by decide
      have e3 : PAGE_MAP "about".toList = some "about.html".toList := by decide
      rw [hsub, if_neg hne, e1, e2, e3]
      simp [startNavigation, appendOutput, recorded]
    · intro hpage
      have hsub := key now "cd /PROJECTS//".toList "cd".toList "/PROJECTS//".toList
        "projects".toList [] s (by decide) (by decide) (by decide) (by decide) (by decide)
        (by decide)
      have e1 : trim "cd /PROJECTS//".toList = "cd /PROJECTS//".toList := by decide
      have e2 : "Already at /".toList ++ "projects".toList =
          "Already at /projects".toList := by decide
      rw [hsub, if_pos hpage.symm, e1, e2]
      simp [appendOutput, recorded]

theorem cd_nav_target_witness :
    tokenize (trim " CD /Certs/ now".toList) =
      ["CD".toList, "/Certs/".toList, "now".toList] ∧
    normalizeTarget "/Certs/".toList = "certs".toList ∧
    (submit [] " CD /Certs/ now".toList (initialSession "home".toList)).historyContainer =
      [OutputNode.echo "CD /Certs/ now".toList,
       OutputNode.output ["Navigating to /certs...".toList] false] ∧
    (submit [] " CD /Certs/ now".toList (initialSession "home".toList)).navigations =
      [some "certs.html".toList] := by
  have h := (cd_nav_target.1 [] " CD /Certs/ now".toList "CD".toList "/Certs/".toList
    "certs".toList ["now".toList] (initialSession "home".toList) (by decide) (by decide)
    (by decide) (by decide) (by decide) (by decide)).2.1 (by decide)
  rw [h]
  exact ⟨by decide, by decide, by decide, by decide⟩

/-- C2 fails as stated: in the line `cd ~` followed by a blank and the letter
U+00E9, the argument `~` is an alias, yet on the about page the submission
prints the invalid-characters error and schedules no navigation; and from `cd`,
197 blanks and `.` (200 characters), Tab gives the argument `..` on a line of
201 characters after trimming, whose submission prints the too-long error and
schedules no navigation. -/
theorem cd_go_home_counterexample :
    ((tokenize (trim ("cd ~ ".toList ++ [Char.ofNat 233])))[1]? = some "~".toList ∧
      normalizeTarget "~".toList ∈ CD_ALIASES ∧
      (submit [] ("cd ~ ".toList ++ [Char.ofNat 233])
          (initialSession "about".toList)).historyContainer =
        [OutputNode.echo ("cd ~ ".toList ++ [Char.ofNat 233]),
         OutputNode.output
           ["Unsupported control characters detected in input.".toList] true] ∧
      (submit [] ("cd ~ ".toList ++ [Char.ofNat 233])
          (initialSession "about".toList)).navigations = []) ∧
    ((run (initialSession "about".toList)
        [Event.edit ("cd".toList ++ List.replicate 197 ' ' ++ ".".toList) 200,
         Event.tab]).inputValue =
        "cd".toList ++ List.replicate 197 ' ' ++ ".. ".toList ∧
      (run (initialSession "about".toList)
        [Event.edit ("cd".toList ++ List.replicate 197 ' ' ++ ".".toList) 200,
         Event.tab, Event.enter []]).historyContainer =
        [OutputNode.echo ("cd".toList ++ List.replicate 197 ' ' ++ "..".toList),
         OutputNode.output
           ["Input too long. Keep commands below 200 characters.".toList] true] ∧
      (run (initialSession "about".toList)
        [Event.edit ("cd".toList ++ List.replicate 197 ' ' ++ ".".toList) 200,
         Event.tab, Event.enter []]).navigations = []) := by
  refine ⟨⟨by decide, by decide, by decide, by decide⟩, ?_, ?_, ?_⟩
  · set_option maxRecDepth 100000 in decide
  · set_option maxRecDepth 100000 in decide
  · set_option maxRecDepth 100000 in decide

/-- C2, amended: on every current page, a submitted line that passes validation
(trimmed text at most 200 long, only characters 0x20-0x7E), whose first token is
`cd` in any case and whose argument is missing or normalizes to the empty
string or to an alias, does what `cd home` does: it prints `Already at /home`
and schedules no navigation on the home page, and otherwise prints
`Navigating to /home...` and schedules exactly one navigation, to `index.html`.
The normalization maps `~` and `..`, after nothing, `./` or `/` and followed
by any number of slashes, to themselves, and nothing, `./` or `/` followed by
any number of slashes (so `/` and `./`) to the empty string; `cd`, `cd ~`,
`cd /`, `cd ..`, `cd ./`, `cd ~/` and `cd ../` are evaluated on every session. -/
theorem cd_go_home :
    (∀ (now line c : Str) (rest : List Str) (s : Session),
      jsLength (trim line) ≤ MAX_COMMAND_LENGTH →
      (∀ ch ∈ trim line, isPrintableAscii ch = true) →
      tokenize (trim line) = c :: rest →
      toLowerCase c = "cd".toList →
      (rest = [] ∨ ∃ a more, rest = a :: more ∧
        (normalizeTarget a = [] ∨ normalizeTarget a ∈ CD_ALIASES)) →
      (s.currentPage = "home".toList →
        submit now line s =
          { currentPage := s.currentPage
            history := recordHistory (trim line) s.history
            historyIndex := -1
            inputValue := []
            selectionStart := 0
            historyContainer := s.historyContainer ++
              [OutputNode.echo (trim line),
               OutputNode.output ["Already at /home".toList] false]
            fadeOut := s.fadeOut
            navigations := s.navigations }) ∧
      (s.currentPage ≠ "home".toList →
        submit now line s =
          { currentPage := s.currentPage
            history := recordHistory (trim line) s.history
            historyIndex := -1
            inputValue := []
            selectionStart := 0
            historyContainer := s.historyContainer ++
              [OutputNode.echo (trim line),
               OutputNode.output ["Navigating to /home...".toList] false]
            fadeOut := true
            navigations := s.navigations ++ [some "index.html".toList] }) ∧
      (∀ s0 : Session, handleCd (rest.headD []) s0 = handleCd "home".toList s0)) ∧
    (∀ (lead a t : Str) (k : Nat),
      lead = [] ∨ lead = "./".toList ∨ lead = "/".toList →
      toLowerCase a = t → t = "~".toList ∨ t = "..".toList →
      normalizeTarget (lead ++ a ++ List.replicate k '/') = t ∧ t ∈ CD_ALIASES) ∧
    (∀ (lead : Str) (k : Nat),
      lead = [] ∨ lead = "./".toList ∨ lead = "/".toList →
      normalizeTarget (lead ++ List.replicate k '/') = []) ∧
    (normalizeTarget "./".toList = [] ∧ normalizeTarget "/".toList = [] ∧
      normalizeTarget "~/".toList = "~".toList ∧ normalizeTarget "../".toList = "..".toList ∧
      normalizeTarget "~".toList = "~".toList ∧ normalizeTarget "..".toList = "..".toList) ∧
    (∀ (now : Str) (s : Session),
      ∀ line ∈ ["cd".toList, "cd ~".toList, "cd /".toList, "cd ..".toList, "cd ./".toList,
        "cd ~/".toList, "cd ../".toList],
      (s.currentPage = "home".toList →
        (submit now line s).historyContainer = s.historyContainer ++
          [OutputNode.echo line, OutputNode.output ["Already at /home".toList] false] ∧
        (submit now line s).navigations = s.navigations) ∧
      (s.currentPage ≠ "home".toList →
        (submit now line s).historyContainer = s.historyContainer ++
          [OutputNode.echo line, OutputNode.output ["Navigating to /home...".toList] false] ∧
        (submit now line s).navigations = s.navigations ++ [some "index.html".toList])) := by
  have key : ∀ (now line c : Str) (rest : List Str) (s : Session),
      jsLength (trim line) ≤ MAX_COMMAND_LENGTH →
      (∀ ch ∈ trim line, isPrintableAscii ch = true) →
      tokenize (trim line) = c :: rest →
      toLowerCase c = "cd".toList →
      (rest = [] ∨ ∃ a more, rest = a :: more ∧
        (normalizeTarget a = [] ∨ normalizeTarget a ∈ CD_ALIASES)) →
      (s.currentPage = "home".toList →
        submit now line s =
          { currentPage := s.currentPage
            history := recordHistory (trim line) s.history
            historyIndex := -1
            inputValue := []
            selectionStart := 0
            historyContainer := s.historyContainer ++
              [OutputNode.echo (trim line),
               OutputNode.output ["Already at /home".toList] false]
            fadeOut := s.fadeOut
            navigations := s.navigations }) ∧
      (s.currentPage ≠ "home".toList →
        submit now line s =
          { currentPage := s.currentPage
            history := recordHistory (trim line) s.history
            historyIndex := -1
            inputValue := []
            selectionStart := 0
            historyContainer := s.historyContainer ++
              [OutputNode.echo (trim line),
               OutputNode.output ["Navigating to /home...".toList] false]
            fadeOut := true
            navigations := s.navigations ++ [some "index.html".toList] }) ∧
      (∀ s0 : Session, handleCd (rest.headD []) s0 = handleCd "home".toList s0) := by
    intro now line c rest s hlen hascii htok hcd hgo
    have harg : normalizeTarget (rest.head?.getD []) = [] ∨
        normalizeTarget (rest.head?.getD []) ∈ CD_ALIASES := by
      rcases hgo with rfl | ⟨a, more, rfl, h⟩
      · exact Or.inl (by decide)
      · simpa using h
    have hsub := submit_eq_dispatch now line s (trim_ne_nil_of_tokenize htok) hlen hascii
    rw [htok, dispatch_cd now c rest _ hcd, handleCd_goHome _ _ harg] at hsub
    refine ⟨?_, ?_, ?_⟩
    · intro h
      rw [hsub]
      simp [recorded, h, appendOutput]
    · intro h
      rw [hsub, if_neg (show ¬ (recorded (trim line) s).currentPage = "home".toList from h)]
      simp [recorded, appendOutput, startNavigation]
    · intro s0
      have harg' : normalizeTarget (rest.headD []) = [] ∨
          normalizeTarget (rest.headD []) ∈ CD_ALIASES := by
        cases rest <;> simpa using harg
      rw [handleCd_goHome _ _ harg', handleCd_home]
  refine ⟨key, ?_, ?_, by decide, ?_⟩
  · intro lead a t k hlead hlow ht
    constructor
    · apply normalizeTarget_decorated lead a t k hlead hlow
      rcases ht with rfl | rfl <;> decide
    · rcases ht with rfl | rfl <;> decide
  · intro lead k hlead
    exact normalizeTarget_slashes lead k hlead
  · intro now s line hmem
    have hall : ∀ x ∈ ["cd".toList, "cd ~".toList, "cd /".toList, "cd ..".toList,
        "cd ./".toList, "cd ~/".toList, "cd ../".toList],
        trim x = x ∧ jsLength (trim x) ≤ MAX_COMMAND_LENGTH ∧
        (∀ ch ∈ trim x, isPrintableAscii ch = true) ∧
        ∃ rest, tokenize (trim x) = "cd".toList :: rest ∧
          (rest = [] ∨ ∃ a more, rest = a :: more ∧
            (normalizeTarget a = [] ∨ normalizeTarget a ∈ CD_ALIASES)) := by
      intro x hx
      simp only [List.mem_cons, List.mem_singleton, List.not_mem_nil, or_false] at hx
      rcases hx with rfl | rfl | rfl | rfl | rfl | rfl | rfl
      · exact ⟨by decide, by decide, by decide, [], by decide, Or.inl rfl⟩
      · exact ⟨by decide, by decide, by decide, ["~".toList], by decide,
          Or.inr ⟨_, _, rfl, by decide⟩⟩
      · exact ⟨by decide, by decide, by decide, ["/".toList], by decide,
          Or.inr ⟨_, _, rfl, by decide⟩⟩
      · exact ⟨by decide, by decide, by decide, ["..".toList], by decide,
          Or.inr ⟨_, _, rfl, by decide⟩⟩
      · exact ⟨by decide, by decide, by decide, ["./".toList], by decide,
          Or.inr ⟨_, _, rfl, by decide⟩⟩
      · exact ⟨by decide, by decide, by decide, ["~/".toList], by decide,
          Or.inr ⟨_, _, rfl, by decide⟩⟩
      · exact ⟨by decide, by decide, by decide, ["../".toList], by decide,
          Or.inr ⟨_, _, rfl, by decide⟩⟩
    obtain ⟨htrim, hlen, hascii, rest, htok, hgo⟩ := hall line hmem
    obtain ⟨h1, h2, _⟩ := key now line "cd".toList rest s hlen hascii htok (by decide) hgo
    constructor
    · intro hpage
      rw [h1 hpage, htrim]
      exact ⟨rfl, rfl⟩
    · intro hpage
      rw [h2 hpage, htrim]
      exact ⟨rfl, rfl⟩

theorem cd_go_home_witness :
    tokenize (trim "CD ./ x".toList) = ["CD".toList, "./".toList, "x".toList] ∧
    normalizeTarget "./".toList = [] ∧
    (submit [] "CD ./ x".toList (initialSession "about".toList)).navigations
      = [some "index.html".toList] ∧
    (submit [] "cd".toList (initialSession "home".toList)).historyContainer
      = [OutputNode.echo "cd".toList, OutputNode.output ["Already at /home".toList] false] := by
  refine ⟨by decide, by decide, ?_, ?_⟩
  · rw [(cd_go_home.1 [] "CD ./ x".toList "CD".toList ["./".toList, "x".toList]
      (initialSession "about".toList) (by decide) (by decide) (by decide) (by decide)
      (Or.inr ⟨"./".toList, ["x".toList], rfl, Or.inl (by decide)⟩)).2.1 (by decide)]
    rfl
  · rw [(cd_go_home.1 [] "cd".toList "cd".toList []
      (initialSession "home".toList) (by decide) (by decide) (by decide) (by decide)
      (Or.inl rfl)).1 (by decide)]
    rfl

/-- C3 fails as stated: the argument of `cd` followed by a blank and the
letter U+00E9 normalizes to neither the empty string, nor an alias, nor a nav
target, yet the submission prints the invalid-characters error, not
`No such directory`; and `cd` with an argument of 198 letters `x` (201
characters) prints the too-long error. -/
theorem cd_no_such_directory_counterexample :
    ((tokenize (trim ("cd ".toList ++ [Char.ofNat 233])))[1]? = some [Char.ofNat 233] ∧
      normalizeTarget [Char.ofNat 233] ≠ [] ∧
      normalizeTarget [Char.ofNat 233] ∉ CD_ALIASES ∧
      normalizeTarget [Char.ofNat 233] ∉ NAV_TARGETS ∧
      (submit [] ("cd ".toList ++ [Char.ofNat 233])
          (initialSession "home".toList)).historyContainer =
        [OutputNode.echo ("cd ".toList ++ [Char.ofNat 233]),
         OutputNode.output
           ["Unsupported control characters detected in input.".toList] true] ∧
      OutputNode.output
          ["cd: ".toList ++ [Char.ofNat 233] ++ ": No such directory".toList] true ∉
        (submit [] ("cd ".toList ++ [Char.ofNat 233])
          (initialSession "home".toList)).historyContainer) ∧
    ((tokenize (trim ("cd ".toList ++ List.replicate 198 'x')))[1]? =
        some (List.replicate 198 'x') ∧
      normalizeTarget (List.replicate 198 'x') ≠ [] ∧
      normalizeTarget (List.replicate 198 'x') ∉ CD_ALIASES ∧
      normalizeTarget (List.replicate 198 'x') ∉ NAV_TARGETS ∧
      (submit [] ("cd ".toList ++ List.replicate 198 'x')
          (initialSession "home".toList)).historyContainer =
        [OutputNode.echo ("cd ".toList ++ List.replicate 198 'x'),
         OutputNode.output
           ["Input too long. Keep commands below 200 characters.".toList] true]) := by
  refine ⟨⟨by decide, by decide, by decide, by decide, by decide, by decide⟩,
    ?_, ?_, ?_, ?_, ?_⟩
  · set_option maxRecDepth 100000 in decide
  · set_option maxRecDepth 100000 in decide
  · set_option maxRecDepth 100000 in decide
  · set_option maxRecDepth 100000 in decide
  · set_option maxRecDepth 100000 in decide

/-- C3, amended: a submitted line that passes validation (trimmed text at most
200 long, only characters 0x20-0x7E), whose first token is `cd` in any case and
whose second token `a` normalizes to neither the empty string, nor an alias,
nor a nav target, prints after the echo the one error line
`cd: a: No such directory`, with `a` as typed, and schedules no navigation;
`//about` is such an argument (only one leading slash is removed) and is not
equivalent to `about`; `cd xyz` prints `cd: xyz: No such directory`. -/
theorem cd_no_such_directory :
    (∀ (now line c a : Str) (rest : List Str) (s : Session),
      jsLength (trim line) ≤ MAX_COMMAND_LENGTH →
      (∀ ch ∈ trim line, isPrintableAscii ch = true) →
      tokenize (trim line) = c :: a :: rest →
      toLowerCase c = "cd".toList →
      normalizeTarget a ≠ [] →
      normalizeTarget a ∉ CD_ALIASES →
      normalizeTarget a ∉ NAV_TARGETS →
      submit now line s =
        { currentPage := s.currentPage
          history := recordHistory (trim line) s.history
          historyIndex := -1
          inputValue := []
          selectionStart := 0
          historyContainer := s.historyContainer ++
            [OutputNode.echo (trim line),
             OutputNode.output ["cd: ".toList ++ a ++ ": No such directory".toList] true]
          fadeOut := s.fadeOut
          navigations := s.navigations }) ∧
    (normalizeTarget "//about".toList = "/about".toList ∧
      normalizeTarget "//about".toList ≠ normalizeTarget "about".toList ∧
      normalizeTarget "//about".toList ≠ [] ∧
      normalizeTarget "//about".toList ∉ CD_ALIASES ∧
      normalizeTarget "//about".toList ∉ NAV_TARGETS) ∧
    (∀ (now : Str) (s : Session),
      (submit now "cd //about".toList s).historyContainer = s.historyContainer ++
        [OutputNode.echo "cd //about".toList,
         OutputNode.output ["cd: //about: No such directory".toList] true] ∧
      (submit now "cd //about".toList s).navigations = s.navigations ∧
      (submit now "cd xyz".toList s).historyContainer = s.historyContainer ++
        [OutputNode.echo "cd xyz".toList,
         OutputNode.output ["cd: xyz: No such directory".toList] true] ∧
      (submit now "cd xyz".toList s).navigations = s.navigations) := by
  have key : ∀ (now line c a : Str) (rest : List Str) (s : Session),
      jsLength (trim line) ≤ MAX_COMMAND_LENGTH →
      (∀ ch ∈ trim line, isPrintableAscii ch = true) →
      tokenize (trim line) = c :: a :: rest →
      toLowerCase c = "cd".toList →
      normalizeTarget a ≠ [] →
      normalizeTarget a ∉ CD_ALIASES →
      normalizeTarget a ∉ NAV_TARGETS →
      submit now line s =
        { currentPage := s.currentPage
          history := recordHistory (trim line) s.history
          historyIndex := -1
          inputValue := []
          selectionStart := 0
          historyContainer := s.historyContainer ++
            [OutputNode.echo (trim line),
             OutputNode.output ["cd: ".toList ++ a ++ ": No such directory".toList] true]
          fadeOut := s.fadeOut
          navigations := s.navigations } := by
    intro now line c a rest s hlen hascii htok hcd hempty halias htarget
    have hsub := submit_eq_dispatch now line s (trim_ne_nil_of_tokenize htok) hlen hascii
    rw [htok, dispatch_cd now c (a :: rest) _ hcd] at hsub
    simp only [List.head?_cons, Option.getD_some] at hsub
    rw [handleCd_unknown a _ hempty halias htarget] at hsub
    rw [hsub]
    simp [recorded, appendOutput]
  refine ⟨key, by decide, ?_⟩
  intro now s
  have h1 := key now "cd //about".toList "cd".toList "//about".toList [] s
    (by decide) (by decide) (by decide) (by decide) (by decide) (by decide) (by decide)
  have h2 := key now "cd xyz".toList "cd".toList "xyz".toList [] s
    (by decide) (by decide) (by decide) (by decide) (by decide) (by decide) (by decide)
  rw [h1, h2]
  exact ⟨rfl, rfl, rfl, rfl⟩

theorem cd_no_such_directory_witness :
    (submit [] "CD Blog/".toList (initialSession "home".toList)).historyContainer =
      [OutputNode.echo "CD Blog/".toList,
       OutputNode.output ["cd: Blog/: No such directory".toList] true] := by
  rw [cd_no_such_directory.1 [] "CD Blog/".toList "CD".toList "Blog/".toList []
    (initialSession "home".toList)
    (by decide) (by decide) (by decide) (by decide) (by decide) (by decide) (by decide)]
  decide

end TerminalJs
